import Mathlib

/-
Verification development for the onchain-license-registry core.

This file gives a shallow embedding, in Lean 4, of the registry data model
and of the pure logic of the core components:

  * the governance-diff comparator (compareRegistries, Verifier component),
  * the SHA-256 hash comparison helper (verifyHash, hash utilities),
  * the inline-mode and backward-walk registry chain reconstructors
    (useRegistry hook, both design variants),
  * the multi-gateway IPFS fetch loop (IpfsGateway.fetch),
  * the content URI helpers (formatContentUri and parseContentUri),
  * the ENS contenthash decoder (decodeContenthash with its varint,
    hex, base58 and base32 helpers).

External effects (HTTP fetches, the Web Crypto SHA-256 digest) are modeled
as explicit function parameters; JavaScript Map objects are modeled as
association lists with insertion-order semantics; JavaScript 32-bit bitwise
arithmetic is modeled on Nat and Int with explicit reductions modulo 2 ^ 32.
-/

-- ============================================================
-- Data model (src/app/types/license-registry.ts)
-- ============================================================

/-- Storage-agnostic content reference. The protocol is modeled as a plain
string; the TypeScript type restricts it to an enumeration of tags. -/
structure ContentReference where
  protocol : String
  hash : String
deriving DecidableEq, Repr

/-- License information within an entry. -/
structure LicenseInfo where
  spdx : String
  text_path : String
  text_sha256 : String
deriving DecidableEq, Repr

/-- Optional governance decision information. -/
structure GovernanceInfo where
  decision_path : String
  decision_sha256 : String
deriving DecidableEq, Repr

/-- A single entry in the license registry. The schema tag is modeled as a
plain string (the TypeScript type fixes it to the literal tag); the version
is modeled as a natural number. -/
structure LicenseEntry where
  schema : String
  version : Nat
  created_at : String
  effective_date : String
  license : LicenseInfo
  governance : Option GovernanceInfo := none
  prev_entry_ref : Option ContentReference := none
deriving DecidableEq, Repr

/-- The registry manifest (registry.json). The backward-walk design variant
uses head_entry_path; the inline design variant uses the entries array
(newest first). Both fields are carried so the one manifest type serves
both variants. -/
structure RegistryManifest where
  schema : String
  name : String
  description : Option String := none
  current_version : Nat
  head_entry_path : String := ""
  entries : List LicenseEntry := []
deriving DecidableEq, Repr

/-- Result record of one verification check (Verifier component). -/
structure ComparisonCheck where
  id : String
  description : String
  passed : Bool
  error : Option String := none
  details : Option String := none
deriving DecidableEq, Repr

/-- One element of the modifiedEntries list of a comparison result. -/
structure ModifiedEntry where
  old : LicenseEntry
  new : LicenseEntry
  differences : List String
deriving DecidableEq, Repr

/-- Result of comparing two registries (Verifier component). -/
structure ComparisonResult where
  valid : Bool
  summary : String
  checks : List ComparisonCheck
  newEntries : List LicenseEntry
  modifiedEntries : List ModifiedEntry
  removedEntries : List LicenseEntry
deriving DecidableEq, Repr

-- ============================================================
-- String helpers modeling the JavaScript string operations used
-- ============================================================

/-- Model of the JavaScript startsWith method: p is a prefix of s.
Lengths and positions are counted in unicode scalars; all the strings the
code applies this to are ASCII. -/
def strStartsWith (s p : String) : Bool :=
  List.isPrefixOf p.data s.data

/-- Model of the JavaScript toLowerCase method, character by character. -/
def toLowerStr (s : String) : String :=
  String.mk (s.data.map Char.toLower)

/-- Model of the JavaScript slice(n) method: drop the first n characters. -/
def strDrop (s : String) (n : Nat) : String :=
  String.mk (s.data.drop n)

/-- Expected schema tag of a registry manifest. -/
def expectedRegistrySchema : String := "commonground-license-registry/v1"

/-- Expected schema tag of a license entry. -/
def expectedEntrySchema : String := "commonground-license-entry/v1"

-- ============================================================
-- Hash utilities (src/unnamed/part_010)
-- ============================================================

/-- Embedding of verifyHash: the SHA-256 digest itself is the Web Crypto
API, an external primitive, so it is passed in as the function sha256fn;
the comparison is case-insensitive on the hex strings, exactly as in the
source (actualHash.toLowerCase() === expectedHash.toLowerCase()). -/
def verifyHash (sha256fn : String → String) (content expectedHash : String) : Bool :=
  toLowerStr (sha256fn content) == toLowerStr expectedHash

-- ============================================================
-- Version maps: JavaScript Map objects keyed by version number
-- ============================================================

/-- A JavaScript Map from version numbers to entries, modeled as an
association list in insertion order with unique keys. -/
abbrev VersionMap := List (Nat × LicenseEntry)

/-- Model of Map.prototype.set: replace in place if the key is present,
append otherwise (JavaScript Maps preserve insertion order and keep the
original position of a re-set key). -/
def mapSet : VersionMap → Nat → LicenseEntry → VersionMap
  | [], k, v => [(k, v)]
  | (k1, v1) :: rest, k, v =>
    if k1 = k then (k1, v) :: rest else (k1, v1) :: mapSet rest k v

/-- Model of Map.prototype.get. -/
def mapGet (m : VersionMap) (k : Nat) : Option LicenseEntry :=
  List.lookup k m

/-- Model of Map.prototype.has. -/
def mapHas (m : VersionMap) (k : Nat) : Bool :=
  (mapGet m k).isSome

/-- Build the version-to-entry map of a manifest, as in compareRegistries:
for (const entry of entries) map.set(entry.version, entry). -/
def buildVersionMap (entries : List LicenseEntry) : VersionMap :=
  entries.foldl (fun m e => mapSet m e.version e) []

-- ============================================================
-- Governance-diff comparator (src/unnamed/part_003, compareRegistries)
-- ============================================================

/-- Field-level differences between a current entry and the proposed entry
for the same version, in the order the source pushes them. -/
def entryDifferences (currentEntry proposedEntry : LicenseEntry) : List String :=
  (if currentEntry.effective_date ≠ proposedEntry.effective_date then
    ["effective_date: " ++ currentEntry.effective_date ++ " → " ++ proposedEntry.effective_date]
  else []) ++
  (if currentEntry.license.spdx ≠ proposedEntry.license.spdx then
    ["license.spdx: " ++ currentEntry.license.spdx ++ " → " ++ proposedEntry.license.spdx]
  else []) ++
  (if currentEntry.license.text_sha256 ≠ proposedEntry.license.text_sha256 then
    ["license.text_sha256: hash changed"]
  else [])

/-- One iteration of the loop over the current version map (Check 3 of
compareRegistries): a version absent from the proposed map is pushed to
removedEntries, a present version with field differences is pushed to
modifiedEntries. -/
def preservationStep (proposedEntriesByVersion : VersionMap)
    (acc : List LicenseEntry × List ModifiedEntry) (kv : Nat × LicenseEntry) :
    List LicenseEntry × List ModifiedEntry :=
  match mapGet proposedEntriesByVersion kv.1 with
  | none => (acc.1 ++ [kv.2], acc.2)
  | some proposedEntry =>
    let differences := entryDifferences kv.2 proposedEntry
    if differences.isEmpty then acc
    else (acc.1, acc.2 ++ [{ old := kv.2, new := proposedEntry, differences := differences }])

/-- The whole loop of Check 3: fold over the current version map. -/
def scanPreservation (currentEntriesByVersion proposedEntriesByVersion : VersionMap) :
    List LicenseEntry × List ModifiedEntry :=
  currentEntriesByVersion.foldl (preservationStep proposedEntriesByVersion) ([], [])

/-- Characterization helper for the modified side of the scan: the entry,
if any, that the loop would record as modified for one key-value pair. -/
def modifiedFor (proposedEntriesByVersion : VersionMap) (kv : Nat × LicenseEntry) :
    Option ModifiedEntry :=
  match mapGet proposedEntriesByVersion kv.1 with
  | none => none
  | some proposedEntry =>
    if (entryDifferences kv.2 proposedEntry).isEmpty then none
    else some { old := kv.2, new := proposedEntry, differences := entryDifferences kv.2 proposedEntry }

/-- Check 4 of compareRegistries: entries of the proposed map whose version
is absent from the current map, in map order. -/
def computeNewEntries (currentEntriesByVersion proposedEntriesByVersion : VersionMap) :
    List LicenseEntry :=
  proposedEntriesByVersion.foldl
    (fun acc kv => if mapHas currentEntriesByVersion kv.1 then acc else acc ++ [kv.2]) []

/-- Check 5 of compareRegistries for a single new entry: fetch its license
text from the proposed root and verify the declared hash; a fetch failure
becomes a failing check, not an exception. -/
def hashCheckFor (sha256fn : String → String)
    (fetchLicenseText : String → String → Except String String)
    (proposedCid : String) (entry : LicenseEntry) : ComparisonCheck :=
  match fetchLicenseText proposedCid entry.license.text_path with
  | Except.ok licenseText =>
    let hashValid := verifyHash sha256fn licenseText entry.license.text_sha256
    { id := "hash_v" ++ toString entry.version,
      description := "License text hash valid for v" ++ toString entry.version,
      passed := hashValid,
      error := if hashValid then none else some "Hash mismatch",
      details := none }
  | Except.error err =>
    { id := "hash_v" ++ toString entry.version,
      description := "License text hash valid for v" ++ toString entry.version,
      passed := false,
      error := some ("Failed to fetch license: " ++ err),
      details := none }

/-- Boolean shorthand: the hash check of one added entry passes. -/
def addedHashOk (sha256fn : String → String)
    (fetchLicenseText : String → String → Except String String)
    (proposedCid : String) (entry : LicenseEntry) : Bool :=
  match fetchLicenseText proposedCid entry.license.text_path with
  | Except.ok licenseText => verifyHash sha256fn licenseText entry.license.text_sha256
  | Except.error _ => false

/-- The critical-check filter of compareRegistries: schema, preserved,
unmodified, and every check whose id starts with hash_. -/
def isCriticalCheck (c : ComparisonCheck) : Bool :=
  c.id == "schema" || c.id == "entries_preserved" || c.id == "entries_unmodified" ||
    strStartsWith c.id "hash_"

/-- The one-line summary of a comparison result, in the priority order of
the source. -/
def buildSummary (valid : Bool) (newEntries : List LicenseEntry)
    (modifiedEntries : List ModifiedEntry) (removedEntries : List LicenseEntry) : String :=
  if valid = true ∧ 0 < newEntries.length then
    "✓ Valid update with " ++ toString newEntries.length ++ " new " ++
      (if newEntries.length = 1 then "entry" else "entries")
  else if valid = true then
    "✓ Valid (no changes)"
  else if 0 < removedEntries.length then
    "✗ Invalid: " ++ toString removedEntries.length ++ " entries removed"
  else if 0 < modifiedEntries.length then
    "✗ Invalid: " ++ toString modifiedEntries.length ++ " entries modified"
  else
    "✗ Invalid: verification failed"

/-- Overall validity of a comparison: every critical check passed. -/
def overallValid (checks : List ComparisonCheck) : Bool :=
  (checks.filter isCriticalCheck).all (fun c => c.passed)

/-- The checks list built by compareRegistries, in source order: schema,
version progression, entries preserved, entries unmodified, new entries
(informational), one hash check per new entry, name consistency. -/
def comparisonChecks (sha256fn : String → String)
    (fetchLicenseText : String → String → Except String String)
    (currentManifest proposedManifest : RegistryManifest)
    (proposedCid : String) : List ComparisonCheck :=
  let currentEntriesByVersion := buildVersionMap currentManifest.entries
  let proposedEntriesByVersion := buildVersionMap proposedManifest.entries
  -- Check 1: schema compatibility
  let schemaCheck : ComparisonCheck :=
    { id := "schema", description := "Registry schema is valid",
      passed := proposedManifest.schema == expectedRegistrySchema,
      error := if proposedManifest.schema == expectedRegistrySchema then none
               else some ("Invalid schema: " ++ proposedManifest.schema),
      details := none }
  -- Check 2: version progression
  let currentMaxVersion := currentManifest.current_version
  let proposedMaxVersion := proposedManifest.current_version
  let versionProgresses := decide (currentMaxVersion ≤ proposedMaxVersion)
  let versionCheck : ComparisonCheck :=
    { id := "version_progression", description := "Version number increases or stays the same",
      passed := versionProgresses,
      error := if versionProgresses then none
               else some ("Proposed version (" ++ toString proposedMaxVersion ++
                 ") is less than current (" ++ toString currentMaxVersion ++ ")"),
      details := some ("Current: v" ++ toString currentMaxVersion ++ " → Proposed: v" ++
        toString proposedMaxVersion) }
  -- Check 3: all existing entries preserved
  let scanned := scanPreservation currentEntriesByVersion proposedEntriesByVersion
  let removedEntries := scanned.1
  let modifiedEntries := scanned.2
  let preservedCheck : ComparisonCheck :=
    { id := "entries_preserved", description := "All existing entries are preserved",
      passed := removedEntries.length == 0,
      error := if removedEntries.length == 0 then none
               else some (toString removedEntries.length ++ " entries were removed"),
      details := if removedEntries.length == 0 then none
                 else some ("Removed: v" ++
                   String.intercalate ", v" (removedEntries.map (fun e => toString e.version))) }
  let unmodifiedCheck : ComparisonCheck :=
    { id := "entries_unmodified", description := "Existing entries are unmodified",
      passed := modifiedEntries.length == 0,
      error := if modifiedEntries.length == 0 then none
               else some (toString modifiedEntries.length ++ " entries were modified"),
      details := if modifiedEntries.length == 0 then none
                 else some ("Modified: v" ++
                   String.intercalate ", v" (modifiedEntries.map (fun m => toString m.old.version))) }
  -- Check 4: find new entries
  let newEntries := computeNewEntries currentEntriesByVersion proposedEntriesByVersion
  let newEntriesCheck : ComparisonCheck :=
    { id := "new_entries", description := "New entries are properly added",
      passed := true, error := none,
      details := if 0 < newEntries.length then
                   some (toString newEntries.length ++ " new entries: v" ++
                     String.intercalate ", v" (newEntries.map (fun e => toString e.version)))
                 else some "No new entries" }
  -- Check 5: verify license text hashes for new entries
  let hashChecks := newEntries.map (hashCheckFor sha256fn fetchLicenseText proposedCid)
  -- Check 6: registry name consistency
  let nameConsistent := currentManifest.name == proposedManifest.name
  let nameCheck : ComparisonCheck :=
    { id := "name_consistent", description := "Registry name is consistent",
      passed := nameConsistent,
      error := if nameConsistent then none
               else some ("Name changed: \"" ++ currentManifest.name ++ "\" → \"" ++
                 proposedManifest.name ++ "\""),
      details := none }
  [schemaCheck, versionCheck, preservedCheck, unmodifiedCheck, newEntriesCheck] ++
    hashChecks ++ [nameCheck]

/-- Embedding of compareRegistries. The SHA-256 digest and the license-text
fetch are external effects, passed in as sha256fn and fetchLicenseText; the
currentCid argument is carried but, as in the source, never read. -/
def compareRegistries (sha256fn : String → String)
    (fetchLicenseText : String → String → Except String String)
    (currentManifest : RegistryManifest) (currentCid : Option String)
    (proposedManifest : RegistryManifest) (proposedCid : String) : ComparisonResult :=
  let currentEntriesByVersion := buildVersionMap currentManifest.entries
  let proposedEntriesByVersion := buildVersionMap proposedManifest.entries
  let scanned := scanPreservation currentEntriesByVersion proposedEntriesByVersion
  let removedEntries := scanned.1
  let modifiedEntries := scanned.2
  let newEntries := computeNewEntries currentEntriesByVersion proposedEntriesByVersion
  let checks :=
    comparisonChecks sha256fn fetchLicenseText currentManifest proposedManifest proposedCid
  -- overall validity = conjunction of the critical checks
  let valid := overallValid checks
  { valid := valid,
    summary := buildSummary valid newEntries modifiedEntries removedEntries,
    checks := checks,
    newEntries := newEntries,
    modifiedEntries := modifiedEntries,
    removedEntries := removedEntries }

-- ============================================================
-- Registry chain reconstruction, inline variant
-- (src/app/hooks/use-registry.ts, second variant, fetchRegistry)
-- ============================================================

/-- Embedding of the inline-mode part of fetchRegistry, starting from the
already fetched manifest: validate the schema tag, reject an empty entries
array, otherwise the chain is the inline entries array (sorted newest
first) and the current entry is its first element. An error value
corresponds to the thrown Error caught by the surrounding try, which sets
the error state. -/
def reconstructInline (manifest : RegistryManifest) :
    Except String (List LicenseEntry × LicenseEntry) :=
  if manifest.schema ≠ expectedRegistrySchema then
    Except.error ("Unknown registry schema: " ++ manifest.schema)
  else
    match manifest.entries with
    | [] => Except.error "Registry has no entries"
    | currentEntry :: _ => Except.ok (manifest.entries, currentEntry)

-- ============================================================
-- Registry chain reconstruction, backward-walk variant
-- (src/app/hooks/use-registry.ts, first variant, fetchRegistry)
-- ============================================================

/-- The backward walk of the first fetchRegistry variant: for version from
the given number down to 1, fetch entries/v{version}.json; a failed fetch
breaks the loop without error. The fetch is external, passed in as a
function from a version number to the fetched entry or a failure. -/
def collectChain (fetchEntry : Nat → Option LicenseEntry) : Nat → List LicenseEntry
  | 0 => []
  | Nat.succ v =>
    match fetchEntry (Nat.succ v) with
    | none => []
    | some prevEntry => prevEntry :: collectChain fetchEntry v

/-- Embedding of the backward-walk chain construction, starting from the
already fetched head entry: validate the entry schema tag (a mismatch is a
thrown Error, hence the error state), then the chain is the head entry
followed by the walk from head.version - 1 down to 1. -/
def reconstructBackward (fetchEntry : Nat → Option LicenseEntry)
    (headEntry : LicenseEntry) : Except String (List LicenseEntry) :=
  if headEntry.schema ≠ expectedEntrySchema then
    Except.error ("Unknown entry schema: " ++ headEntry.schema)
  else
    Except.ok (headEntry :: collectChain fetchEntry (headEntry.version - 1))

/-- Specification helper: the list e v, e (v-1), ..., e (stop+1) of entries
indexed by decreasing version, empty when v is at most stop. Used to state
what the backward walk returns. -/
def descList (e : Nat → LicenseEntry) (stop : Nat) : Nat → List LicenseEntry
  | 0 => []
  | Nat.succ v => if Nat.succ v ≤ stop then [] else e (Nat.succ v) :: descList e stop v

-- ============================================================
-- Multi-gateway IPFS fetch (src/app/lib/storage/ipfs.ts)
-- ============================================================

/-- The data carried by a GatewayError (src/app/lib/storage/types.ts):
message, protocol, hash, the full ordered gateway list, and the per-origin
errors in attempt order. -/
structure GatewayErrorData where
  message : String
  protocol : String
  hash : String
  attemptedGateways : List String
  errors : List String
deriving DecidableEq, Repr

/-- The default gateway list of the IpfsGateway class. -/
def DEFAULT_IPFS_GATEWAYS : List String :=
  ["https://dweb.link", "https://w3s.link", "https://cloudflare-ipfs.com", "https://ipfs.io"]

/-- Embedding of IpfsGateway.buildUrl. -/
def buildUrl (gateway hash : String) (path : Option String) : String :=
  match path with
  | some p => gateway ++ "/ipfs/" ++ hash ++ p
  | none => gateway ++ "/ipfs/" ++ hash

/-- The gateway loop of IpfsGateway.fetch: try each remaining gateway once
in order; a failure (non-ok status or timeout) is recorded and the next
gateway is tried; when the list is exhausted a GatewayError is raised
carrying the full configured gateway list and the accumulated errors. The
single-origin attempt (HTTP request with timeout) is external, passed in as
a function from the request URL to a response or an error message. -/
def fetchLoop {α : Type} (attempt : String → Except String α) (hash : String)
    (path : Option String) (allGateways : List String) :
    List String → List String → Except GatewayErrorData α
  | [], errors =>
    Except.error
      { message := "All IPFS gateways failed for CID: " ++ hash,
        protocol := "ipfs", hash := hash,
        attemptedGateways := allGateways, errors := errors }
  | gateway :: rest, errors =>
    match attempt (buildUrl gateway hash path) with
    | Except.ok response => Except.ok response
    | Except.error err => fetchLoop attempt hash path allGateways rest (errors ++ [err])

/-- Embedding of IpfsGateway.fetch for a gateway object configured with the
given ordered gateway list. -/
def ipfsFetch {α : Type} (attempt : String → Except String α) (gateways : List String)
    (hash : String) (path : Option String) : Except GatewayErrorData α :=
  fetchLoop attempt hash path gateways gateways []

-- ============================================================
-- Content URI helpers (src/app/lib/storage/types.ts)
-- ============================================================

/-- Embedding of formatContentUri. -/
def formatContentUri (ref : ContentReference) : String :=
  ref.protocol ++ "://" ++ ref.hash

/-- Line terminators, which the dot of a JavaScript regular expression
without the s flag does not match. -/
def isLineTerminator (c : Char) : Bool :=
  c = '\n' ∨ c = '\r' ∨ c.val = 0x2028 ∨ c.val = 0x2029

/-- One alternative of the anchored regular expression
(ipfs|ipns|bzz|ar)://(.+): the input must start with the given protocol
tag followed by ://, and the remainder (the hash group) must be non-empty
and free of line terminators (the dot does not match those, and the end
anchor is the end of the input). -/
def tryProtoAlt (uri : String) (proto : String) : Option (String × String) :=
  let pre := proto.data ++ [':', '/', '/']
  if List.isPrefixOf pre uri.data then
    let rest := uri.data.drop pre.length
    if rest.isEmpty = false && rest.all (fun c => !(isLineTerminator c)) then
      some (proto, String.mk rest)
    else none
  else none

/-- Match of the whole regular expression: the four alternatives are tried
left to right. -/
def regexMatchContentUri (uri : String) : Option (String × String) :=
  ((tryProtoAlt uri "ipfs").orElse (fun _ => tryProtoAlt uri "ipns")).orElse
    (fun _ => (tryProtoAlt uri "bzz").orElse (fun _ => tryProtoAlt uri "ar"))

/-- Embedding of parseContentUri: the first regex group is the protocol,
the second is the hash; no match gives null. -/
def parseContentUri (uri : String) : Option ContentReference :=
  match regexMatchContentUri uri with
  | none => none
  | some (proto, hash) => some { protocol := proto, hash := hash }

-- ============================================================
-- ENS contenthash decoding (src/unnamed/part_011)
-- ============================================================

/-- Value of one hexadecimal digit, upper or lower case. -/
def hexCharVal (c : Char) : Option Nat :=
  if '0' ≤ c ∧ c ≤ '9' then some (c.toNat - '0'.toNat)
  else if 'a' ≤ c ∧ c ≤ 'f' then some (c.toNat - 'a'.toNat + 10)
  else if 'A' ≤ c ∧ c ≤ 'F' then some (c.toNat - 'A'.toNat + 10)
  else none

/-- Model of parseInt(s, 16) on a two-character slice, as stored into a
Uint8Array element: parseInt parses the longest valid prefix, gives NaN
when the first character is not a hex digit, and NaN is stored as 0. -/
def parseHexPair (c1 c2 : Char) : Nat :=
  match hexCharVal c1 with
  | none => 0
  | some h1 =>
    match hexCharVal c2 with
    | none => h1
    | some h2 => 16 * h1 + h2

/-- The loop of the local hexToBytes helper: bytes from successive pairs of
characters. -/
def hexPairs : List Char → List Nat
  | c1 :: c2 :: rest => parseHexPair c1 c2 :: hexPairs rest
  | _ => []

/-- Embedding of the local hexToBytes of the ENS module (which, unlike the
one of the hash module, does not strip a 0x prefix). On a string of odd
length the source constructs a Uint8Array of fractional length, which
throws a RangeError; the callers try block turns that into null, so the
odd case is modeled as none. -/
def hexToBytes (hex : String) : Option (List Nat) :=
  if hex.data.length % 2 = 0 then some (hexPairs hex.data) else none

/-- Two-complement unsigned 32-bit pattern of an integer (JavaScript
ToUint32). -/
def toUint32 (i : Int) : Nat :=
  (i % (2 ^ 32 : Int)).toNat

/-- Signed 32-bit value of a bit pattern (JavaScript ToInt32). -/
def toSigned32 (n : Nat) : Int :=
  if n % 2 ^ 32 < 2 ^ 31 then ((n % 2 ^ 32 : Nat) : Int)
  else ((n % 2 ^ 32 : Nat) : Int) - 2 ^ 32

/-- The loop of readVarint. The JavaScript accumulator is a number that
the bitwise operations coerce to a signed 32-bit integer, and the shift
count of << is taken modulo 32; both are modeled explicitly. -/
def readVarintAux : List Nat → Int → Nat → Nat → Int × Nat
  | [], value, _, bytesRead => (value, bytesRead)
  | b :: rest, value, shift, bytesRead =>
    let value :=
      toSigned32 (Nat.lor (toUint32 value) (Nat.land b 0x7f * 2 ^ (shift % 32) % 2 ^ 32))
    let bytesRead := bytesRead + 1
    if Nat.land b 0x80 = 0 then (value, bytesRead)
    else readVarintAux rest value (shift + 7) bytesRead

/-- Embedding of readVarint: the decoded value and the number of bytes
consumed. -/
def readVarint (bytes : List Nat) : Int × Nat :=
  readVarintAux bytes 0 0 0

/-- The base58btc alphabet of the source. -/
def BASE58_ALPHABET : String :=
  "123456789ABCDEFGHJKLMNPQRSTUVWXYZabcdefghijkmnopqrstuvwxyz"

/-- Leading zero bytes, counted as in the first loop of base58btcEncode. -/
def countLeadingZeros : List Nat → Nat
  | 0 :: rest => countLeadingZeros rest + 1
  | _ => 0

/-- The division loop of base58btcEncode, written with an explicit fuel
parameter so that the recursion is structural; the value shrinks strictly
at every step, so a fuel of value + 1 never runs out. -/
def base58Loop (fuel : Nat) (value : Nat) (acc : String) : String :=
  match fuel with
  | 0 => acc
  | Nat.succ fuel =>
    if value = 0 then acc
    else
      base58Loop fuel (value / 58)
        (String.mk [BASE58_ALPHABET.data.getD (value % 58) '1'] ++ acc)

/-- Embedding of base58btcEncode: count leading zeros, read the bytes as a
big-endian big integer, emit base58 digits least significant first, and
prepend one character 1 per leading zero byte. -/
def base58btcEncode (bytes : List Nat) : String :=
  let zeros := countLeadingZeros bytes
  let value := bytes.foldl (fun v b => v * 256 + b) 0
  String.mk (List.replicate zeros '1') ++ base58Loop (value + 1) value ""

/-- The base32 lowercase alphabet of the source. -/
def BASE32_ALPHABET : String := "abcdefghijklmnopqrstuvwxyz234567"

/-- Character of the base32 alphabet at an index below 32. -/
def base32Char (i : Nat) : Char :=
  BASE32_ALPHABET.data.getD i 'a'

/-- The inner while loop of base32Encode: while at least 5 bits are
buffered, emit the top 5. Written with fuel (the bit count strictly
decreases, so a fuel of bits suffices). -/
def base32Emit (fuel : Nat) (value : Nat) (bits : Nat) (acc : String) : Nat × String :=
  match fuel with
  | 0 => (bits, acc)
  | Nat.succ fuel =>
    if 5 ≤ bits then
      base32Emit fuel value (bits - 5)
        (acc.push (base32Char (Nat.land (value / 2 ^ (bits - 5)) 0x1f)))
    else (bits, acc)

/-- Embedding of base32Encode. The JavaScript accumulator is subject to
32-bit coercion by the bitwise operators, modeled by the explicit
reductions modulo 2 ^ 32. -/
def base32Encode (bytes : List Nat) : String :=
  let step := fun (st : Nat × Nat × String) (b : Nat) =>
    let value := Nat.lor (st.1 * 256 % 2 ^ 32) b
    let bits := st.2.1 + 8
    let emitted := base32Emit bits value bits st.2.2
    (value, emitted.1, emitted.2)
  let final := bytes.foldl step (0, 0, "")
  if 0 < final.2.1 then
    final.2.2.push (base32Char (Nat.land (final.1 * 2 ^ (5 - final.2.1) % 2 ^ 32) 0x1f))
  else final.2.2

/-- Hex rendering of one byte, as b.toString(16).padStart(2, "0"). -/
def byteToHex (b : Nat) : String :=
  let s := Nat.toDigits 16 b
  String.mk (List.replicate (2 - s.length) '0' ++ s)

/-- Embedding of the local bytesToHex of the ENS module. -/
def bytesToHex (bytes : List Nat) : String :=
  String.join (bytes.map byteToHex)

/-- Embedding of the simplified synchronous decodeCid: null on fewer than
two bytes; base58btc for a CIDv0 shape (0x12 0x20 and exactly 34 bytes);
base32 with a b prefix when the leading varint reads version 1; otherwise
the hex fallback. Nothing in the body can throw, so the try only guards
against the impossible. -/
def decodeCid (bytes : List Nat) : Option String :=
  if bytes.length < 2 then none
  else if bytes.getD 0 0 = 0x12 ∧ bytes.getD 1 0 = 0x20 ∧ bytes.length = 34 then
    some (base58btcEncode bytes)
  else
    let vr := readVarint bytes
    if vr.1 = 1 then some ("b" ++ base32Encode bytes)
    else some (bytesToHex bytes)

/-- Body of decodeContenthash on a string input: the guard clause rejects
the empty string (falsy in the source), the bare 0x, and any string
shorter than 4 characters. Inside the try block a fractional Uint8Array
length (odd hex length) throws a RangeError that the catch turns into
null, modeled by the none case of hexToBytes. The source binds the varint
result and the content bytes once with const; they are written out here.
Lengths are unicode-scalar counts; contenthash values are ASCII hex. -/
def decodeContenthashStr (ch : String) : Option ContentReference :=
  if ch.isEmpty || ch == "0x" || ch.data.length < 4 then none
  else
    match hexToBytes (if strStartsWith ch "0x" then strDrop ch 2 else ch) with
    | none => none
    | some bytes =>
      if bytes.length < 2 then none
      else
        if (readVarint bytes).1 = 0xe3 then
          match decodeCid (bytes.drop (readVarint bytes).2) with
          | some cid => some { protocol := "ipfs", hash := cid }
          | none => none
        else if (readVarint bytes).1 = 0xe5 then
          match decodeCid (bytes.drop (readVarint bytes).2) with
          | some key => some { protocol := "ipns", hash := key }
          | none => none
        else if (readVarint bytes).1 = 0xe4 then
          if 32 ≤ (bytes.drop (readVarint bytes).2).length then
            some
              { protocol := "bzz",
                hash := bytesToHex ((bytes.drop (readVarint bytes).2).take 32) }
          else none
        else none

/-- Embedding of decodeContenthash: null input decodes to null, a string
input goes through the guarded body. -/
def decodeContenthash (contenthash : Option String) : Option ContentReference :=
  match contenthash with
  | none => none
  | some ch => decodeContenthashStr ch

-- ============================================================
-- Concrete sample data, used by the witness theorems
-- ============================================================

/-- Sample license entry with the given version, SPDX identifier, declared
text hash, and effective date. -/
def sampleEntry (v : Nat) (spdx sha date : String) : LicenseEntry :=
  { schema := expectedEntrySchema, version := v, created_at := "2024-01-01T00:00:00Z",
    effective_date := date, license :=
      { spdx := spdx, text_path := "licenses/v" ++ toString v ++ ".txt", text_sha256 := sha } }

/-- Sample current manifest with versions 1 and 2. -/
def sampleCur : RegistryManifest :=
  { schema := expectedRegistrySchema, name := "Commonground Licenses", current_version := 2,
    entries := [sampleEntry 2 "MIT" "2b2b" "2024-02-01", sampleEntry 1 "ISC" "1a1a" "2024-01-01"] }

/-- Sample proposed manifest that drops version 2 (a removal). -/
def samplePropRemoved : RegistryManifest :=
  { schema := expectedRegistrySchema, name := "Commonground Licenses", current_version := 2,
    entries := [sampleEntry 1 "ISC" "1a1a" "2024-01-01"] }

/-- Sample proposed manifest that rewrites the SPDX tag of version 2
(a modification). -/
def samplePropModified : RegistryManifest :=
  { schema := expectedRegistrySchema, name := "Commonground Licenses", current_version := 2,
    entries := [sampleEntry 2 "Apache-2.0" "2b2b" "2024-02-01",
      sampleEntry 1 "ISC" "1a1a" "2024-01-01"] }

/-- Sample proposed manifest that adds exactly version 3. -/
def samplePropAdded : RegistryManifest :=
  { schema := expectedRegistrySchema, name := "Commonground Licenses", current_version := 3,
    entries := [sampleEntry 3 "AGPL-3.0-only" "3C3C" "2024-03-01",
      sampleEntry 2 "MIT" "2b2b" "2024-02-01", sampleEntry 1 "ISC" "1a1a" "2024-01-01"] }

/-- Sample proposed manifest that at once removes version 1, rewrites the
SPDX tag of version 2, and adds version 3. -/
def samplePropMixed : RegistryManifest :=
  { schema := expectedRegistrySchema, name := "Commonground Licenses", current_version := 3,
    entries := [sampleEntry 3 "AGPL-3.0-only" "3C3C" "2024-03-01",
      sampleEntry 2 "Apache-2.0" "2b2b" "2024-02-01"] }

/-- Sample digest function: the text of version 3 hashes to 3c3c, in
lowercase, while its manifest declares 3C3C, exercising the
case-insensitive comparison. -/
def sampleSha : String → String :=
  fun text => if text = "AGPL body" then "3c3c" else "ffff"

/-- Sample license-text fetch from the proposed root: only the version 3
text is available. -/
def sampleFetch : String → String → Except String String :=
  fun _ path =>
    if path = "licenses/v3.txt" then Except.ok "AGPL body" else Except.error "not found"

-- ============================================================
-- Helper lemmas: version maps (JavaScript Map model)
-- ============================================================

theorem mem_mapSet {m : VersionMap} {k : Nat} {v : LicenseEntry} {kv : Nat × LicenseEntry}
    (h : kv ∈ mapSet m k v) : (kv.1 = k ∧ kv.2 = v) ∨ kv ∈ m := by
  induction m with
  | nil =>
    simp only [mapSet, List.mem_singleton] at h
    subst h
    exact Or.inl ⟨rfl, rfl⟩
  | cons a m ih =>
    obtain ⟨k1, v1⟩ := a
    simp only [mapSet] at h
    by_cases hk : k1 = k
    · rw [if_pos hk] at h
      rcases List.mem_cons.mp h with h | h
      · subst h
        exact Or.inl ⟨hk, rfl⟩
      · exact Or.inr (List.mem_cons_of_mem _ h)
    · rw [if_neg hk] at h
      rcases List.mem_cons.mp h with h | h
      · exact Or.inr (by rw [h]; exact List.mem_cons_self _ _)
      · rcases ih h with h | h
        · exact Or.inl h
        · exact Or.inr (List.mem_cons_of_mem _ h)

theorem mem_keys_mapSet {m : VersionMap} {k j : Nat} {v : LicenseEntry} :
    j ∈ (mapSet m k v).map Prod.fst ↔ j ∈ m.map Prod.fst ∨ j = k := by
  induction m with
  | nil => simp [mapSet]
  | cons a m ih =>
    obtain ⟨k1, v1⟩ := a
    by_cases hk : k1 = k
    · subst hk
      simp only [mapSet, if_true, eq_self_iff_true, List.map_cons, List.mem_cons]
      tauto
    · simp only [mapSet, if_neg hk, List.map_cons, List.mem_cons, ih]
      tauto

theorem keys_nodup_mapSet {m : VersionMap} {k : Nat} {v : LicenseEntry}
    (h : (m.map Prod.fst).Nodup) : ((mapSet m k v).map Prod.fst).Nodup := by
  induction m with
  | nil => simp [mapSet]
  | cons a m ih =>
    obtain ⟨k1, v1⟩ := a
    simp only [List.map_cons, List.nodup_cons] at h
    by_cases hk : k1 = k
    · simp only [mapSet, if_pos hk, List.map_cons, List.nodup_cons]
      exact h
    · simp only [mapSet, if_neg hk, List.map_cons, List.nodup_cons]
      refine ⟨fun hmem => ?_, ih h.2⟩
      rcases mem_keys_mapSet.mp hmem with hmem | hmem
      · exact h.1 hmem
      · exact hk hmem

theorem lookup_mapSet_self {m : VersionMap} {k : Nat} {v : LicenseEntry} :
    List.lookup k (mapSet m k v) = some v := by
  induction m with
  | nil => simp [mapSet, List.lookup]
  | cons a m ih =>
    obtain ⟨k1, v1⟩ := a
    by_cases hk : k1 = k
    · subst hk
      simp [mapSet, List.lookup]
    · have hne : (k == k1) = false := beq_eq_false_iff_ne.mpr (fun hcon => hk hcon.symm)
      simp [mapSet, if_neg hk, List.lookup, hne, ih]

theorem lookup_mapSet_ne {m : VersionMap} {k j : Nat} {v : LicenseEntry} (hjk : j ≠ k) :
    List.lookup j (mapSet m k v) = List.lookup j m := by
  have hne : (j == k) = false := beq_eq_false_iff_ne.mpr hjk
  induction m with
  | nil => simp [mapSet, List.lookup, hne]
  | cons a m ih =>
    obtain ⟨k1, v1⟩ := a
    by_cases hk : k1 = k
    · subst hk
      simp [mapSet, List.lookup, hne]
    · by_cases hj : j = k1
      · subst hj
        simp [mapSet, if_neg hk, List.lookup]
      · have hne1 : (j == k1) = false := beq_eq_false_iff_ne.mpr hj
        simp [mapSet, if_neg hk, List.lookup, hne1, ih]

theorem buildVersionMap_aux_mem {es : List LicenseEntry} :
    ∀ {m : VersionMap} {kv : Nat × LicenseEntry},
      kv ∈ es.foldl (fun m e => mapSet m e.version e) m →
      kv ∈ m ∨ (kv.2 ∈ es ∧ kv.1 = kv.2.version) := by
  induction es with
  | nil => intro m kv h; exact Or.inl h
  | cons e es ih =>
    intro m kv h
    rcases ih h with h | h
    · rcases mem_mapSet h with h | h
      · exact Or.inr ⟨by rw [h.2]; exact List.mem_cons_self _ _, by rw [h.2]; exact h.1⟩
      · exact Or.inl h
    · exact Or.inr ⟨List.mem_cons_of_mem _ h.1, h.2⟩

theorem buildVersionMap_aux_keys {es : List LicenseEntry} :
    ∀ {m : VersionMap} {j : Nat},
      j ∈ (es.foldl (fun m e => mapSet m e.version e) m).map Prod.fst ↔
        j ∈ m.map Prod.fst ∨ j ∈ es.map (fun e => e.version) := by
  induction es with
  | nil => intro m j; simp
  | cons e es ih =>
    intro m j
    simp only [List.foldl_cons, ih, mem_keys_mapSet, List.map_cons, List.mem_cons]
    tauto

theorem buildVersionMap_aux_nodup {es : List LicenseEntry} :
    ∀ {m : VersionMap}, (m.map Prod.fst).Nodup →
      ((es.foldl (fun m e => mapSet m e.version e) m).map Prod.fst).Nodup := by
  induction es with
  | nil => intro m h; exact h
  | cons e es ih => intro m h; exact ih (keys_nodup_mapSet h)

theorem mem_buildVersionMap {es : List LicenseEntry} {kv : Nat × LicenseEntry}
    (h : kv ∈ buildVersionMap es) : kv.2 ∈ es ∧ kv.1 = kv.2.version := by
  rcases buildVersionMap_aux_mem h with h | h
  · simp at h
  · exact h

theorem mem_keys_buildVersionMap {es : List LicenseEntry} {j : Nat} :
    j ∈ (buildVersionMap es).map Prod.fst ↔ j ∈ es.map (fun e => e.version) := by
  unfold buildVersionMap
  rw [buildVersionMap_aux_keys]
  simp

theorem keys_nodup_buildVersionMap {es : List LicenseEntry} :
    ((buildVersionMap es).map Prod.fst).Nodup :=
  buildVersionMap_aux_nodup (by simp)

theorem lookup_eq_none_iff_keys {l : VersionMap} {k : Nat} :
    List.lookup k l = none ↔ k ∉ l.map Prod.fst := by
  rw [List.lookup_eq_none_iff]
  constructor
  · intro h hk
    rcases List.mem_map.mp hk with ⟨p, hp, hpk⟩
    have := h p hp
    rw [bne_iff_ne] at this
    exact this hpk.symm
  · intro h p hp
    rw [bne_iff_ne]
    intro hk
    exact h (List.mem_map.mpr ⟨p, hp, hk.symm⟩)

theorem mem_of_lookup_eq_some {l : VersionMap} {k : Nat} {v : LicenseEntry}
    (h : List.lookup k l = some v) : (k, v) ∈ l := by
  induction l with
  | nil => simp [List.lookup] at h
  | cons a l ih =>
    obtain ⟨k1, v1⟩ := a
    by_cases hk : k = k1
    · subst hk
      simp only [List.lookup, beq_self_eq_true] at h
      rw [Option.some_inj] at h
      subst h
      exact List.mem_cons_self _ _
    · have hne : (k == k1) = false := beq_eq_false_iff_ne.mpr hk
      simp only [List.lookup, hne] at h
      exact List.mem_cons_of_mem _ (ih h)

theorem lookup_eq_some_of_mem_nodup {l : VersionMap} {k : Nat} {v : LicenseEntry}
    (hnodup : (l.map Prod.fst).Nodup) (h : (k, v) ∈ l) : List.lookup k l = some v := by
  induction l with
  | nil => simp at h
  | cons a l ih =>
    obtain ⟨k1, v1⟩ := a
    simp only [List.map_cons, List.nodup_cons] at hnodup
    rcases List.mem_cons.mp h with h2 | h2
    · rw [Prod.mk.injEq] at h2
      obtain ⟨hk, hv⟩ := h2
      subst hk; subst hv
      simp [List.lookup]
    · have hk : k ≠ k1 := by
        intro hcon
        rw [hcon] at h2
        exact hnodup.1 (List.mem_map.mpr ⟨(k1, v), h2, rfl⟩)
      have hne : (k == k1) = false := beq_eq_false_iff_ne.mpr hk
      simp only [List.lookup, hne]
      exact ih hnodup.2 h2

theorem lookup_ne_none_of_mem_keys {l : VersionMap} {k : Nat}
    (h : k ∈ l.map Prod.fst) : List.lookup k l ≠ none := by
  intro hcon
  exact lookup_eq_none_iff_keys.mp hcon h

theorem nodup_keys_value_unique {l : VersionMap} {k : Nat} {a b : LicenseEntry}
    (hnodup : (l.map Prod.fst).Nodup) (ha : (k, a) ∈ l) (hb : (k, b) ∈ l) : a = b := by
  have h1 := lookup_eq_some_of_mem_nodup hnodup ha
  have h2 := lookup_eq_some_of_mem_nodup hnodup hb
  rw [h1] at h2
  exact Option.some_inj.mp h2

-- ============================================================
-- Helper lemmas: the comparator loops as filter and filterMap
-- ============================================================

theorem scanPreservation_foldl (propMap : VersionMap) :
    ∀ (l : VersionMap) (acc : List LicenseEntry × List ModifiedEntry),
      l.foldl (preservationStep propMap) acc =
        (acc.1 ++ (l.filter (fun kv => (mapGet propMap kv.1).isNone)).map Prod.snd,
         acc.2 ++ l.filterMap (modifiedFor propMap)) := by
  intro l
  induction l with
  | nil => intro acc; simp
  | cons kv l ih =>
    intro acc
    rw [List.foldl_cons, ih]
    cases hget : mapGet propMap kv.1 with
    | none =>
      simp only [preservationStep, hget, List.filter_cons, List.filterMap_cons,
        modifiedFor, Option.isNone_none]
      simp
    | some pe =>
      by_cases hdiff : (entryDifferences kv.2 pe).isEmpty
      · simp only [preservationStep, hget, hdiff, if_pos, List.filter_cons,
          List.filterMap_cons, modifiedFor, Option.isNone_some]
        simp [hdiff]
      · simp only [preservationStep, hget, List.filter_cons, List.filterMap_cons,
          modifiedFor, Option.isNone_some]
        simp [hdiff]

theorem scanPreservation_eq (curMap propMap : VersionMap) :
    scanPreservation curMap propMap =
      ((curMap.filter (fun kv => (mapGet propMap kv.1).isNone)).map Prod.snd,
       curMap.filterMap (modifiedFor propMap)) := by
  unfold scanPreservation
  rw [scanPreservation_foldl]
  simp

theorem computeNewEntries_foldl (curMap : VersionMap) :
    ∀ (l : VersionMap) (acc : List LicenseEntry),
      l.foldl (fun acc kv => if mapHas curMap kv.1 then acc else acc ++ [kv.2]) acc =
        acc ++ (l.filter (fun kv => !(mapHas curMap kv.1))).map Prod.snd := by
  intro l
  induction l with
  | nil => intro acc; simp
  | cons kv l ih =>
    intro acc
    rw [List.foldl_cons, ih]
    by_cases hhas : mapHas curMap kv.1
    · simp [hhas]
    · simp [hhas]

theorem computeNewEntries_eq (curMap propMap : VersionMap) :
    computeNewEntries curMap propMap =
      (propMap.filter (fun kv => !(mapHas curMap kv.1))).map Prod.snd := by
  unfold computeNewEntries
  rw [computeNewEntries_foldl]
  simp

theorem modifiedFor_eq_some {propMap : VersionMap} {kv : Nat × LicenseEntry}
    {m : ModifiedEntry} (h : modifiedFor propMap kv = some m) :
    m.old = kv.2 ∧ ∃ pe, mapGet propMap kv.1 = some pe ∧ m.new = pe ∧
      m.differences = entryDifferences kv.2 pe ∧
      (entryDifferences kv.2 pe).isEmpty = false := by
  cases hget : mapGet propMap kv.1 with
  | none => simp only [modifiedFor, hget] at h; exact absurd h (by simp)
  | some pe =>
    simp only [modifiedFor, hget] at h
    by_cases hdiff : (entryDifferences kv.2 pe).isEmpty
    · rw [if_pos hdiff] at h; simp at h
    · rw [if_neg hdiff] at h
      rw [Option.some_inj] at h
      subst h
      exact ⟨rfl, pe, rfl, rfl, rfl, Bool.eq_false_iff.mpr hdiff⟩

-- ============================================================
-- Helper lemmas: entryDifferences
-- ============================================================

theorem entryDifferences_self (e : LicenseEntry) : entryDifferences e e = [] := by
  simp [entryDifferences]

theorem entryDifferences_eq_nil_iff {a b : LicenseEntry} :
    entryDifferences a b = [] ↔
      a.effective_date = b.effective_date ∧ a.license.spdx = b.license.spdx ∧
        a.license.text_sha256 = b.license.text_sha256 := by
  unfold entryDifferences
  by_cases h1 : a.effective_date = b.effective_date <;>
    by_cases h2 : a.license.spdx = b.license.spdx <;>
      by_cases h3 : a.license.text_sha256 = b.license.text_sha256 <;>
        simp [h1, h2, h3]

theorem mem_entryDifferences_date {a b : LicenseEntry}
    (h : a.effective_date ≠ b.effective_date) :
    ("effective_date: " ++ a.effective_date ++ " → " ++ b.effective_date) ∈
      entryDifferences a b := by
  simp [entryDifferences, h]

theorem mem_entryDifferences_spdx {a b : LicenseEntry}
    (h : a.license.spdx ≠ b.license.spdx) :
    ("license.spdx: " ++ a.license.spdx ++ " → " ++ b.license.spdx) ∈
      entryDifferences a b := by
  simp [entryDifferences, h]

theorem mem_entryDifferences_sha {a b : LicenseEntry}
    (h : a.license.text_sha256 ≠ b.license.text_sha256) :
    ("license.text_sha256: hash changed") ∈ entryDifferences a b := by
  simp [entryDifferences, h]

-- ============================================================
-- Helper lemmas: compareRegistries projections and overall validity
-- ============================================================

theorem compare_removed_def (sha256fn : String → String)
    (fetchLicenseText : String → String → Except String String)
    (c : RegistryManifest) (cc : Option String) (p : RegistryManifest) (pc : String) :
    (compareRegistries sha256fn fetchLicenseText c cc p pc).removedEntries =
      (scanPreservation (buildVersionMap c.entries) (buildVersionMap p.entries)).1 := rfl

theorem compare_modified_def (sha256fn : String → String)
    (fetchLicenseText : String → String → Except String String)
    (c : RegistryManifest) (cc : Option String) (p : RegistryManifest) (pc : String) :
    (compareRegistries sha256fn fetchLicenseText c cc p pc).modifiedEntries =
      (scanPreservation (buildVersionMap c.entries) (buildVersionMap p.entries)).2 := rfl

theorem compare_new_def (sha256fn : String → String)
    (fetchLicenseText : String → String → Except String String)
    (c : RegistryManifest) (cc : Option String) (p : RegistryManifest) (pc : String) :
    (compareRegistries sha256fn fetchLicenseText c cc p pc).newEntries =
      computeNewEntries (buildVersionMap c.entries) (buildVersionMap p.entries) := rfl

theorem compare_valid_def (sha256fn : String → String)
    (fetchLicenseText : String → String → Except String String)
    (c : RegistryManifest) (cc : Option String) (p : RegistryManifest) (pc : String) :
    (compareRegistries sha256fn fetchLicenseText c cc p pc).valid =
      overallValid (comparisonChecks sha256fn fetchLicenseText c p pc) := rfl

theorem compare_summary_def (sha256fn : String → String)
    (fetchLicenseText : String → String → Except String String)
    (c : RegistryManifest) (cc : Option String) (p : RegistryManifest) (pc : String) :
    (compareRegistries sha256fn fetchLicenseText c cc p pc).summary =
      buildSummary (overallValid (comparisonChecks sha256fn fetchLicenseText c p pc))
        (computeNewEntries (buildVersionMap c.entries) (buildVersionMap p.entries))
        (scanPreservation (buildVersionMap c.entries) (buildVersionMap p.entries)).2
        (scanPreservation (buildVersionMap c.entries) (buildVersionMap p.entries)).1 := rfl

theorem hashCheckFor_passed (sha256fn : String → String)
    (fetchLicenseText : String → String → Except String String)
    (pc : String) (e : LicenseEntry) :
    (hashCheckFor sha256fn fetchLicenseText pc e).passed =
      addedHashOk sha256fn fetchLicenseText pc e := by
  unfold hashCheckFor addedHashOk
  cases fetchLicenseText pc e.license.text_path <;> rfl

theorem hashCheckFor_critical (sha256fn : String → String)
    (fetchLicenseText : String → String → Except String String)
    (pc : String) (e : LicenseEntry) :
    isCriticalCheck (hashCheckFor sha256fn fetchLicenseText pc e) = true := by
  unfold hashCheckFor
  cases fetchLicenseText pc e.license.text_path <;>
    · simp only [isCriticalCheck, strStartsWith, String.data_append]
      rfl

theorem all_congr_fun {l : List ComparisonCheck} {p q : ComparisonCheck → Bool}
    (h : ∀ a ∈ l, p a = q a) : l.all p = l.all q := by
  induction l with
  | nil => rfl
  | cons a l ih =>
    simp only [List.all_cons]
    rw [h a (List.mem_cons_self _ _), ih (fun b hb => h b (List.mem_cons_of_mem _ hb))]

theorem overallValid_shape {sc vc pc3 uc nc namec : ComparisonCheck}
    {hashChecks : List ComparisonCheck}
    (h1 : isCriticalCheck sc = true) (h2 : isCriticalCheck vc = false)
    (h3 : isCriticalCheck pc3 = true) (h4 : isCriticalCheck uc = true)
    (h5 : isCriticalCheck nc = false) (h6 : isCriticalCheck namec = false)
    (h7 : ∀ x ∈ hashChecks, isCriticalCheck x = true) :
    overallValid ([sc, vc, pc3, uc, nc] ++ hashChecks ++ [namec]) =
      (sc.passed && (pc3.passed && (uc.passed && hashChecks.all (fun c => c.passed)))) := by
  unfold overallValid
  rw [List.filter_append, List.filter_append]
  rw [List.filter_eq_self.mpr h7]
  simp only [List.filter_cons, h1, h2, h3, h4, h5, h6, List.filter_nil, if_true, if_false]
  simp [Bool.and_assoc]

theorem all_map_hashCheck (sha256fn : String → String)
    (fetchLicenseText : String → String → Except String String)
    (pc : String) (l : List LicenseEntry) :
    ((l.map (hashCheckFor sha256fn fetchLicenseText pc)).all (fun ch => ch.passed)) =
      l.all (addedHashOk sha256fn fetchLicenseText pc) := by
  induction l with
  | nil => rfl
  | cons e l ih =>
    simp only [List.map_cons, List.all_cons, ih,
      hashCheckFor_passed sha256fn fetchLicenseText pc e]

theorem compare_valid_eq (sha256fn : String → String)
    (fetchLicenseText : String → String → Except String String)
    (c : RegistryManifest) (cc : Option String) (p : RegistryManifest) (pc : String) :
    (compareRegistries sha256fn fetchLicenseText c cc p pc).valid =
      ((p.schema == expectedRegistrySchema) &&
       (((scanPreservation (buildVersionMap c.entries) (buildVersionMap p.entries)).1.length == 0) &&
        (((scanPreservation (buildVersionMap c.entries) (buildVersionMap p.entries)).2.length == 0) &&
         (computeNewEntries (buildVersionMap c.entries) (buildVersionMap p.entries)).all
           (addedHashOk sha256fn fetchLicenseText pc)))) := by
  rw [compare_valid_def]
  unfold comparisonChecks
  refine (overallValid_shape ?_ ?_ ?_ ?_ ?_ ?_ ?_).trans ?_
  · rfl
  · rfl
  · rfl
  · rfl
  · rfl
  · rfl
  · intro x hx
    rcases List.mem_map.mp hx with ⟨e, _, he⟩
    rw [← he]
    exact hashCheckFor_critical sha256fn fetchLicenseText pc e
  · rw [all_map_hashCheck]

theorem length_beq_zero_eq_isEmpty {α : Type} (l : List α) : (l.length == 0) = l.isEmpty := by
  cases l <;> rfl

-- ============================================================
-- Claims C1, C2, C3: the governance-diff comparator
-- ============================================================

/-- C1: for every pair of manifests, if the proposed entries omit a version
present in the current entries, then compareRegistries reports valid =
false and the current entry recorded for that version (the version map
binding) appears in removedEntries. -/
theorem spec_c1 (sha256fn : String → String)
    (fetchLicenseText : String → String → Except String String)
    (cur : RegistryManifest) (ccid : Option String) (prop : RegistryManifest) (pcid : String)
    (v : Nat)
    (hin : v ∈ cur.entries.map (fun e => e.version))
    (hout : v ∉ prop.entries.map (fun e => e.version)) :
    (compareRegistries sha256fn fetchLicenseText cur ccid prop pcid).valid = false ∧
    ∃ e, mapGet (buildVersionMap cur.entries) v = some e ∧
      e ∈ (compareRegistries sha256fn fetchLicenseText cur ccid prop pcid).removedEntries := by
  have hkey : v ∈ (buildVersionMap cur.entries).map Prod.fst := mem_keys_buildVersionMap.mpr hin
  have hlook : List.lookup v (buildVersionMap cur.entries) ≠ none :=
    lookup_ne_none_of_mem_keys hkey
  obtain ⟨e, he⟩ := Option.ne_none_iff_exists'.mp hlook
  have hmem : (v, e) ∈ buildVersionMap cur.entries := mem_of_lookup_eq_some he
  have hpnone : mapGet (buildVersionMap prop.entries) v = none :=
    lookup_eq_none_iff_keys.mpr (fun hc => hout (mem_keys_buildVersionMap.mp hc))
  have hrem0 : e ∈ (scanPreservation (buildVersionMap cur.entries)
      (buildVersionMap prop.entries)).1 := by
    rw [scanPreservation_eq]
    exact List.mem_map.mpr ⟨(v, e), List.mem_filter.mpr ⟨hmem, by simp [hpnone]⟩, rfl⟩
  refine ⟨?_, e, he, ?_⟩
  · rw [compare_valid_eq]
    have hlen : ((scanPreservation (buildVersionMap cur.entries)
        (buildVersionMap prop.entries)).1.length == 0) = false := by
      cases hsc : (scanPreservation (buildVersionMap cur.entries)
          (buildVersionMap prop.entries)).1 with
      | nil => rw [hsc] at hrem0; simp at hrem0
      | cons a l => rfl
    rw [hlen]
    simp
  · rw [compare_removed_def]
    exact hrem0

/-- C1 witness: dropping version 2 from the sample registry is reported as
invalid with the version 2 entry among the removed entries. -/
theorem spec_c1_witness :
    (compareRegistries sampleSha sampleFetch sampleCur none samplePropRemoved "cidR").valid
        = false ∧
    ∃ e, mapGet (buildVersionMap sampleCur.entries) 2 = some e ∧
      e ∈ (compareRegistries sampleSha sampleFetch sampleCur none
        samplePropRemoved "cidR").removedEntries :=
  spec_c1 sampleSha sampleFetch sampleCur none samplePropRemoved "cidR" 2
    (by decide) (by decide)

/-- C2: for every pair of manifests and every version bound in both version
maps, if the proposed entry differs from the current entry in the effective
date, the SPDX tag, or the license text hash, then compareRegistries
reports valid = false and that version appears in modifiedEntries with a
non-empty differences list naming each changed field. -/
theorem spec_c2 (sha256fn : String → String)
    (fetchLicenseText : String → String → Except String String)
    (cur : RegistryManifest) (ccid : Option String) (prop : RegistryManifest) (pcid : String)
    (v : Nat) (ce pe : LicenseEntry)
    (hc : mapGet (buildVersionMap cur.entries) v = some ce)
    (hp : mapGet (buildVersionMap prop.entries) v = some pe)
    (hdiff : ce.effective_date ≠ pe.effective_date ∨ ce.license.spdx ≠ pe.license.spdx ∨
      ce.license.text_sha256 ≠ pe.license.text_sha256) :
    (compareRegistries sha256fn fetchLicenseText cur ccid prop pcid).valid = false ∧
    ∃ m ∈ (compareRegistries sha256fn fetchLicenseText cur ccid prop pcid).modifiedEntries,
      m.old = ce ∧ m.new = pe ∧ m.differences ≠ [] ∧
      (ce.effective_date ≠ pe.effective_date →
        ("effective_date: " ++ ce.effective_date ++ " → " ++ pe.effective_date) ∈
          m.differences) ∧
      (ce.license.spdx ≠ pe.license.spdx →
        ("license.spdx: " ++ ce.license.spdx ++ " → " ++ pe.license.spdx) ∈ m.differences) ∧
      (ce.license.text_sha256 ≠ pe.license.text_sha256 →
        "license.text_sha256: hash changed" ∈ m.differences) := by
  have hmem : (v, ce) ∈ buildVersionMap cur.entries := mem_of_lookup_eq_some hc
  have hdne : entryDifferences ce pe ≠ [] := by
    intro hnil
    rcases entryDifferences_eq_nil_iff.mp hnil with ⟨h1, h2, h3⟩
    rcases hdiff with h | h | h
    · exact h h1
    · exact h h2
    · exact h h3
  have hdE : (entryDifferences ce pe).isEmpty = false := by
    cases hd : entryDifferences ce pe with
    | nil => exact absurd hd hdne
    | cons a l => rfl
  have hmf : modifiedFor (buildVersionMap prop.entries) (v, ce) =
      some { old := ce, new := pe, differences := entryDifferences ce pe } := by
    simp only [modifiedFor, hp]
    rw [if_neg]
    rw [hdE]
    simp
  have hmod0 : ({ old := ce, new := pe, differences := entryDifferences ce pe } :
      ModifiedEntry) ∈ (scanPreservation (buildVersionMap cur.entries)
        (buildVersionMap prop.entries)).2 := by
    rw [scanPreservation_eq]
    exact List.mem_filterMap.mpr ⟨(v, ce), hmem, hmf⟩
  refine ⟨?_, { old := ce, new := pe, differences := entryDifferences ce pe },
    by rw [compare_modified_def]; exact hmod0, rfl, rfl, hdne,
    fun h => mem_entryDifferences_date h, fun h => mem_entryDifferences_spdx h,
    fun h => mem_entryDifferences_sha h⟩
  rw [compare_valid_eq]
  have hlen : ((scanPreservation (buildVersionMap cur.entries)
      (buildVersionMap prop.entries)).2.length == 0) = false := by
    cases hsc : (scanPreservation (buildVersionMap cur.entries)
        (buildVersionMap prop.entries)).2 with
    | nil => rw [hsc] at hmod0; simp at hmod0
    | cons a l => rfl
  rw [hlen]
  simp

/-- C2 witness: rewriting the SPDX tag of version 2 from MIT to Apache-2.0
is reported as invalid, with the version in modifiedEntries and a
difference string naming license.spdx. -/
theorem spec_c2_witness :
    (compareRegistries sampleSha sampleFetch sampleCur none samplePropModified "cidM").valid
        = false ∧
    ∃ m ∈ (compareRegistries sampleSha sampleFetch sampleCur none
        samplePropModified "cidM").modifiedEntries,
      m.old = sampleEntry 2 "MIT" "2b2b" "2024-02-01" ∧
      m.new = sampleEntry 2 "Apache-2.0" "2b2b" "2024-02-01" ∧ m.differences ≠ [] ∧
      ((sampleEntry 2 "MIT" "2b2b" "2024-02-01").effective_date ≠
          (sampleEntry 2 "Apache-2.0" "2b2b" "2024-02-01").effective_date →
        ("effective_date: " ++ (sampleEntry 2 "MIT" "2b2b" "2024-02-01").effective_date ++
          " → " ++ (sampleEntry 2 "Apache-2.0" "2b2b" "2024-02-01").effective_date) ∈
          m.differences) ∧
      ((sampleEntry 2 "MIT" "2b2b" "2024-02-01").license.spdx ≠
          (sampleEntry 2 "Apache-2.0" "2b2b" "2024-02-01").license.spdx →
        ("license.spdx: " ++ (sampleEntry 2 "MIT" "2b2b" "2024-02-01").license.spdx ++
          " → " ++ (sampleEntry 2 "Apache-2.0" "2b2b" "2024-02-01").license.spdx) ∈
          m.differences) ∧
      ((sampleEntry 2 "MIT" "2b2b" "2024-02-01").license.text_sha256 ≠
          (sampleEntry 2 "Apache-2.0" "2b2b" "2024-02-01").license.text_sha256 →
        "license.text_sha256: hash changed" ∈ m.differences) :=
  spec_c2 sampleSha sampleFetch sampleCur none samplePropModified "cidM" 2
    (sampleEntry 2 "MIT" "2b2b" "2024-02-01") (sampleEntry 2 "Apache-2.0" "2b2b" "2024-02-01")
    (by decide) (by decide) (by decide)

/-- C3: the overall valid flag equals exactly the conjunction of the
critical checks — schema tag correct on the proposed manifest, no removed
entries, no modified entries, and every added entry passing its hash check.
The right-hand side depends only on the schema tag and the entries of the
two manifests, so the non-critical checks (name consistency, version
progression) can never flip valid by themselves. -/
theorem spec_c3 (sha256fn : String → String)
    (fetchLicenseText : String → String → Except String String)
    (cur : RegistryManifest) (ccid : Option String) (prop : RegistryManifest) (pcid : String) :
    (compareRegistries sha256fn fetchLicenseText cur ccid prop pcid).valid =
      ((prop.schema == expectedRegistrySchema) &&
       ((scanPreservation (buildVersionMap cur.entries) (buildVersionMap prop.entries)).1.isEmpty &&
        ((scanPreservation (buildVersionMap cur.entries) (buildVersionMap prop.entries)).2.isEmpty &&
         (computeNewEntries (buildVersionMap cur.entries) (buildVersionMap prop.entries)).all
           (addedHashOk sha256fn fetchLicenseText pcid)))) := by
  rw [compare_valid_eq]
  rw [length_beq_zero_eq_isEmpty, length_beq_zero_eq_isEmpty]

-- ============================================================
-- Claim C10: the comparator partitions versions consistently
-- ============================================================

theorem mapHas_false_iff {m : VersionMap} {k : Nat} :
    mapHas m k = false ↔ mapGet m k = none := by
  unfold mapHas
  cases mapGet m k <;> simp

theorem mapGet_buildVersionMap_none_iff {es : List LicenseEntry} {k : Nat} :
    mapGet (buildVersionMap es) k = none ↔ k ∉ es.map (fun e => e.version) :=
  lookup_eq_none_iff_keys.trans (not_congr mem_keys_buildVersionMap)

theorem removed_mem_elim {cm pm : VersionMap} {e : LicenseEntry}
    (h : e ∈ (scanPreservation cm pm).1) :
    ∃ kv ∈ cm, kv.2 = e ∧ mapGet pm kv.1 = none := by
  rw [scanPreservation_eq] at h
  rcases List.mem_map.mp h with ⟨kv, hf, he⟩
  rcases List.mem_filter.mp hf with ⟨hmem, hp⟩
  exact ⟨kv, hmem, he, Option.isNone_iff_eq_none.mp hp⟩

theorem modified_mem_elim {cm pm : VersionMap} {m : ModifiedEntry}
    (h : m ∈ (scanPreservation cm pm).2) :
    ∃ kv ∈ cm, m.old = kv.2 ∧ ∃ pe, mapGet pm kv.1 = some pe ∧ m.new = pe := by
  rw [scanPreservation_eq] at h
  rcases List.mem_filterMap.mp h with ⟨kv, hmem, hmf⟩
  rcases modifiedFor_eq_some hmf with ⟨hold, pe, hget, hnew, _, _⟩
  exact ⟨kv, hmem, hold, pe, hget, hnew⟩

theorem new_mem_elim {cm pm : VersionMap} {n : LicenseEntry}
    (h : n ∈ computeNewEntries cm pm) :
    ∃ kv ∈ pm, kv.2 = n ∧ mapGet cm kv.1 = none := by
  rw [computeNewEntries_eq] at h
  rcases List.mem_map.mp h with ⟨kv, hf, hn⟩
  rcases List.mem_filter.mp hf with ⟨hmem, hp⟩
  refine ⟨kv, hmem, hn, mapHas_false_iff.mp ?_⟩
  cases hh : mapHas cm kv.1
  · rfl
  · rw [hh] at hp; simp at hp

/-- C10: for every pair of manifests, compareRegistries partitions versions
consistently: removed and modified entries carry versions present in the
current manifest; the versions of newEntries are exactly the versions
present in the proposed manifest but absent from the current one, each
occurring exactly once; and the version sets of removedEntries,
modifiedEntries and newEntries are pairwise disjoint. -/
theorem spec_c10 (sha256fn : String → String)
    (fetchLicenseText : String → String → Except String String)
    (cur : RegistryManifest) (ccid : Option String) (prop : RegistryManifest) (pcid : String) :
    (∀ e ∈ (compareRegistries sha256fn fetchLicenseText cur ccid prop pcid).removedEntries,
      e.version ∈ cur.entries.map (fun x => x.version)) ∧
    (∀ m ∈ (compareRegistries sha256fn fetchLicenseText cur ccid prop pcid).modifiedEntries,
      m.old.version ∈ cur.entries.map (fun x => x.version)) ∧
    (∀ v : Nat, (v ∈ prop.entries.map (fun x => x.version) ∧
        v ∉ cur.entries.map (fun x => x.version)) ↔
      v ∈ (compareRegistries sha256fn fetchLicenseText cur ccid prop pcid).newEntries.map
        (fun x => x.version)) ∧
    ((compareRegistries sha256fn fetchLicenseText cur ccid prop pcid).newEntries.map
      (fun x => x.version)).Nodup ∧
    (∀ e ∈ (compareRegistries sha256fn fetchLicenseText cur ccid prop pcid).removedEntries,
      ∀ m ∈ (compareRegistries sha256fn fetchLicenseText cur ccid prop pcid).modifiedEntries,
        e.version ≠ m.old.version) ∧
    (∀ e ∈ (compareRegistries sha256fn fetchLicenseText cur ccid prop pcid).removedEntries,
      ∀ n ∈ (compareRegistries sha256fn fetchLicenseText cur ccid prop pcid).newEntries,
        e.version ≠ n.version) ∧
    (∀ m ∈ (compareRegistries sha256fn fetchLicenseText cur ccid prop pcid).modifiedEntries,
      ∀ n ∈ (compareRegistries sha256fn fetchLicenseText cur ccid prop pcid).newEntries,
        m.old.version ≠ n.version) := by
  simp only [compare_removed_def, compare_modified_def, compare_new_def]
  refine ⟨?_, ?_, ?_, ?_, ?_, ?_, ?_⟩
  · intro e he
    rcases removed_mem_elim he with ⟨kv, hmem, hkv, _⟩
    rcases mem_buildVersionMap hmem with ⟨hent, _⟩
    rw [← hkv]
    exact List.mem_map.mpr ⟨kv.2, hent, rfl⟩
  · intro m hm
    rcases modified_mem_elim hm with ⟨kv, hmem, hold, _⟩
    rcases mem_buildVersionMap hmem with ⟨hent, _⟩
    rw [hold]
    exact List.mem_map.mpr ⟨kv.2, hent, rfl⟩
  · intro v
    constructor
    · rintro ⟨hvp, hvc⟩
      have hkey : v ∈ (buildVersionMap prop.entries).map Prod.fst :=
        mem_keys_buildVersionMap.mpr hvp
      obtain ⟨pe, hpe⟩ := Option.ne_none_iff_exists'.mp (lookup_ne_none_of_mem_keys hkey)
      have hmem : (v, pe) ∈ buildVersionMap prop.entries := mem_of_lookup_eq_some hpe
      have hnone : mapGet (buildVersionMap cur.entries) v = none :=
        mapGet_buildVersionMap_none_iff.mpr hvc
      have hnew : pe ∈ computeNewEntries (buildVersionMap cur.entries)
          (buildVersionMap prop.entries) := by
        rw [computeNewEntries_eq]
        refine List.mem_map.mpr ⟨(v, pe), List.mem_filter.mpr ⟨hmem, ?_⟩, rfl⟩
        have : mapHas (buildVersionMap cur.entries) v = false := mapHas_false_iff.mpr hnone
        rw [this]
        rfl
      rcases mem_buildVersionMap hmem with ⟨_, hv⟩
      exact List.mem_map.mpr ⟨pe, hnew, hv.symm⟩
    · intro hv
      rcases List.mem_map.mp hv with ⟨n, hn, hnv⟩
      rcases new_mem_elim hn with ⟨kv, hmem, hkv, hnone⟩
      rcases mem_buildVersionMap hmem with ⟨hent, hkey⟩
      constructor
      · rw [← hnv, ← hkv]
        exact List.mem_map.mpr ⟨kv.2, hent, rfl⟩
      · rw [← hnv, ← hkv, ← hkey]
        exact mapGet_buildVersionMap_none_iff.mp hnone
  · rw [computeNewEntries_eq, List.map_map]
    have hcongr : ((buildVersionMap prop.entries).filter
        (fun kv => !(mapHas (buildVersionMap cur.entries) kv.1))).map
          ((fun x => x.version) ∘ Prod.snd) =
        ((buildVersionMap prop.entries).filter
          (fun kv => !(mapHas (buildVersionMap cur.entries) kv.1))).map Prod.fst := by
      refine List.map_congr_left ?_
      intro kv hkv
      have hmem := List.mem_of_mem_filter hkv
      rcases mem_buildVersionMap hmem with ⟨_, hkey⟩
      exact hkey.symm
    rw [hcongr]
    exact List.Nodup.sublist
      ((List.filter_sublist _).map Prod.fst) keys_nodup_buildVersionMap
  · intro e he m hm
    rcases removed_mem_elim he with ⟨kv, hmem, hkv, hnone⟩
    rcases modified_mem_elim hm with ⟨kv2, hmem2, hold, pe, hsome, _⟩
    rcases mem_buildVersionMap hmem with ⟨_, hkey⟩
    rcases mem_buildVersionMap hmem2 with ⟨_, hkey2⟩
    intro hcon
    rw [← hkv, ← hkey] at hcon
    rw [hold, ← hkey2] at hcon
    rw [hcon, hsome] at hnone
    exact Option.noConfusion hnone
  · intro e he n hn
    rcases removed_mem_elim he with ⟨kv, hmem, hkv, hnone⟩
    rcases new_mem_elim hn with ⟨kw, hmemw, hkw, _⟩
    rcases mem_buildVersionMap hmem with ⟨_, hkey⟩
    rcases mem_buildVersionMap hmemw with ⟨_, hkeyw⟩
    intro hcon
    rw [← hkv, ← hkey, ← hkw, ← hkeyw] at hcon
    have hkeys : kw.1 ∈ (buildVersionMap prop.entries).map Prod.fst :=
      List.mem_map.mpr ⟨kw, hmemw, rfl⟩
    rw [hcon] at hnone
    exact lookup_ne_none_of_mem_keys hkeys hnone
  · intro m hm n hn
    rcases modified_mem_elim hm with ⟨kv2, hmem2, hold, pe, _, _⟩
    rcases new_mem_elim hn with ⟨kw, hmemw, hkw, hnonec⟩
    rcases mem_buildVersionMap hmem2 with ⟨_, hkey2⟩
    rcases mem_buildVersionMap hmemw with ⟨_, hkeyw⟩
    intro hcon
    rw [hold, ← hkey2, ← hkw, ← hkeyw] at hcon
    have hkeys : kv2.1 ∈ (buildVersionMap cur.entries).map Prod.fst :=
      List.mem_map.mpr ⟨kv2, hmem2, rfl⟩
    rw [← hcon] at hnonec
    exact lookup_ne_none_of_mem_keys hkeys hnonec

/-- C10 witness: comparing the sample registry against the mixed proposal
(version 1 removed, version 2 modified, version 3 added) instantiates every
part of the partition invariant. -/
theorem spec_c10_witness :
    ((sampleEntry 1 "ISC" "1a1a" "2024-01-01").version ∈
      sampleCur.entries.map (fun x => x.version)) ∧
    ((sampleEntry 2 "MIT" "2b2b" "2024-02-01").version ∈
      sampleCur.entries.map (fun x => x.version)) ∧
    (((3 : Nat) ∈ samplePropMixed.entries.map (fun x => x.version) ∧
        (3 : Nat) ∉ sampleCur.entries.map (fun x => x.version)) ↔
      (3 : Nat) ∈ (compareRegistries sampleSha sampleFetch sampleCur none samplePropMixed
        "cidX").newEntries.map (fun x => x.version)) ∧
    ((compareRegistries sampleSha sampleFetch sampleCur none samplePropMixed
      "cidX").newEntries.map (fun x => x.version)).Nodup ∧
    (sampleEntry 1 "ISC" "1a1a" "2024-01-01").version ≠
      (sampleEntry 2 "MIT" "2b2b" "2024-02-01").version ∧
    (sampleEntry 1 "ISC" "1a1a" "2024-01-01").version ≠
      (sampleEntry 3 "AGPL-3.0-only" "3C3C" "2024-03-01").version ∧
    (sampleEntry 2 "MIT" "2b2b" "2024-02-01").version ≠
      (sampleEntry 3 "AGPL-3.0-only" "3C3C" "2024-03-01").version :=
  ⟨(spec_c10 sampleSha sampleFetch sampleCur none samplePropMixed "cidX").1
      (sampleEntry 1 "ISC" "1a1a" "2024-01-01") (by decide),
   (spec_c10 sampleSha sampleFetch sampleCur none samplePropMixed "cidX").2.1
      { old := sampleEntry 2 "MIT" "2b2b" "2024-02-01",
        new := sampleEntry 2 "Apache-2.0" "2b2b" "2024-02-01",
        differences := ["license.spdx: MIT → Apache-2.0"] } (by decide),
   (spec_c10 sampleSha sampleFetch sampleCur none samplePropMixed "cidX").2.2.1 3,
   (spec_c10 sampleSha sampleFetch sampleCur none samplePropMixed "cidX").2.2.2.1,
   (spec_c10 sampleSha sampleFetch sampleCur none samplePropMixed "cidX").2.2.2.2.1
      (sampleEntry 1 "ISC" "1a1a" "2024-01-01") (by decide)
      { old := sampleEntry 2 "MIT" "2b2b" "2024-02-01",
        new := sampleEntry 2 "Apache-2.0" "2b2b" "2024-02-01",
        differences := ["license.spdx: MIT → Apache-2.0"] } (by decide),
   (spec_c10 sampleSha sampleFetch sampleCur none samplePropMixed "cidX").2.2.2.2.2.1
      (sampleEntry 1 "ISC" "1a1a" "2024-01-01") (by decide)
      (sampleEntry 3 "AGPL-3.0-only" "3C3C" "2024-03-01") (by decide),
   (spec_c10 sampleSha sampleFetch sampleCur none samplePropMixed "cidX").2.2.2.2.2.2
      { old := sampleEntry 2 "MIT" "2b2b" "2024-02-01",
        new := sampleEntry 2 "Apache-2.0" "2b2b" "2024-02-01",
        differences := ["license.spdx: MIT → Apache-2.0"] } (by decide)
      (sampleEntry 3 "AGPL-3.0-only" "3C3C" "2024-03-01") (by decide)⟩

-- ============================================================
-- Claim C4: a single valid addition is accepted
-- ============================================================

theorem filter_eq_singleton_of {l : VersionMap} {p : Nat × LicenseEntry → Bool}
    {kv0 : Nat × LicenseEntry}
    (hnodup : (l.map Prod.fst).Nodup) (hmem : kv0 ∈ l)
    (hiff : ∀ kv ∈ l, p kv = true ↔ kv = kv0) : l.filter p = [kv0] := by
  induction l with
  | nil => simp at hmem
  | cons a l ih =>
    simp only [List.map_cons, List.nodup_cons] at hnodup
    rw [List.filter_cons]
    by_cases ha : a = kv0
    · subst ha
      rw [if_pos ((hiff a (List.mem_cons_self a l)).mpr rfl)]
      have hnil : l.filter p = [] := by
        rw [List.filter_eq_nil_iff]
        intro b hb hpb
        have hb0 : b = a := (hiff b (List.mem_cons_of_mem a hb)).mp hpb
        subst hb0
        exact hnodup.1 (List.mem_map.mpr ⟨b, hb, rfl⟩)
      rw [hnil]
    · have hmem2 : kv0 ∈ l := by
        rcases List.mem_cons.mp hmem with h | h
        · exact absurd h.symm ha
        · exact h
      have hpa : p a = false := by
        cases hpa : p a
        · rfl
        · exact absurd ((hiff a (List.mem_cons_self a l)).mp hpa) ha
      rw [hpa]
      simp only [Bool.false_eq_true, if_false]
      exact ih hnodup.2 hmem2 (fun b hb => hiff b (List.mem_cons_of_mem a hb))

/-- C4: for every pair of manifests where the proposed one binds every
current version to the unchanged current entry, binds exactly one
additional version (absent from the current entries) to a new entry, and
the license text fetched from the proposed root at that entry path hashes
(case-insensitively) to its declared text_sha256, compareRegistries
accepts: valid = true, newEntries = [e], no removals, no modifications,
and a summary containing "1 new entry". The schema hypothesis restates the
literal type of the TypeScript manifest field. -/
theorem spec_c4 (sha256fn : String → String)
    (fetchLicenseText : String → String → Except String String)
    (cur : RegistryManifest) (ccid : Option String) (prop : RegistryManifest) (pcid : String)
    (e : LicenseEntry) (t : String)
    (hschema : prop.schema = expectedRegistrySchema)
    (hpreserved : ∀ kv ∈ buildVersionMap cur.entries,
      mapGet (buildVersionMap prop.entries) kv.1 = some kv.2)
    (hnewlook : mapGet (buildVersionMap prop.entries) e.version = some e)
    (hnewfresh : e.version ∉ cur.entries.map (fun x => x.version))
    (honlyone : ∀ kv ∈ buildVersionMap prop.entries,
      kv.1 ∈ cur.entries.map (fun x => x.version) ∨ kv.1 = e.version)
    (hfetch : fetchLicenseText pcid e.license.text_path = Except.ok t)
    (hhash : toLowerStr (sha256fn t) = toLowerStr e.license.text_sha256) :
    (compareRegistries sha256fn fetchLicenseText cur ccid prop pcid).valid = true ∧
    (compareRegistries sha256fn fetchLicenseText cur ccid prop pcid).newEntries = [e] ∧
    (compareRegistries sha256fn fetchLicenseText cur ccid prop pcid).removedEntries = [] ∧
    (compareRegistries sha256fn fetchLicenseText cur ccid prop pcid).modifiedEntries = [] ∧
    ∃ a b, (compareRegistries sha256fn fetchLicenseText cur ccid prop pcid).summary =
      a ++ "1 new entry" ++ b := by
  have hscan : scanPreservation (buildVersionMap cur.entries) (buildVersionMap prop.entries) =
      ([], []) := by
    rw [scanPreservation_eq]
    have h1 : (buildVersionMap cur.entries).filter
        (fun kv => (mapGet (buildVersionMap prop.entries) kv.1).isNone) = [] := by
      rw [List.filter_eq_nil_iff]
      intro kv hkv hp
      rw [hpreserved kv hkv] at hp
      simp at hp
    have h2 : (buildVersionMap cur.entries).filterMap
        (modifiedFor (buildVersionMap prop.entries)) = [] := by
      rw [List.filterMap_eq_nil_iff]
      intro kv hkv
      simp only [modifiedFor, hpreserved kv hkv, entryDifferences_self]
      rfl
    rw [h1, h2]
    rfl
  have hnodup : ((buildVersionMap prop.entries).map Prod.fst).Nodup :=
    keys_nodup_buildVersionMap
  have hmemp : (e.version, e) ∈ buildVersionMap prop.entries := mem_of_lookup_eq_some hnewlook
  have hnone : mapGet (buildVersionMap cur.entries) e.version = none :=
    mapGet_buildVersionMap_none_iff.mpr hnewfresh
  have hhasf : mapHas (buildVersionMap cur.entries) e.version = false :=
    mapHas_false_iff.mpr hnone
  have hfilter : (buildVersionMap prop.entries).filter
      (fun kv => !(mapHas (buildVersionMap cur.entries) kv.1)) = [(e.version, e)] := by
    apply filter_eq_singleton_of hnodup hmemp
    intro kv hkv
    obtain ⟨k1, v1⟩ := kv
    constructor
    · intro hp
      have hhas : mapHas (buildVersionMap cur.entries) k1 = false := by
        cases hh : mapHas (buildVersionMap cur.entries) k1
        · rfl
        · rw [hh] at hp; simp at hp
      have hnotin : k1 ∉ cur.entries.map (fun x => x.version) :=
        mapGet_buildVersionMap_none_iff.mp (mapHas_false_iff.mp hhas)
      have hk1 : k1 = e.version := (honlyone (k1, v1) hkv).resolve_left hnotin
      have hlookkv : List.lookup k1 (buildVersionMap prop.entries) = some v1 :=
        lookup_eq_some_of_mem_nodup hnodup hkv
      rw [hk1] at hlookkv
      have hl2 : List.lookup e.version (buildVersionMap prop.entries) = some e := hnewlook
      rw [hl2] at hlookkv
      rw [Prod.mk.injEq]
      exact ⟨hk1, (Option.some_inj.mp hlookkv).symm⟩
    · intro hkv0
      rw [Prod.mk.injEq] at hkv0
      obtain ⟨h1, _⟩ := hkv0
      subst h1
      rw [hhasf]
      rfl
  have hnew : computeNewEntries (buildVersionMap cur.entries) (buildVersionMap prop.entries) =
      [e] := by
    rw [computeNewEntries_eq, hfilter]
    rfl
  have hvalid : (compareRegistries sha256fn fetchLicenseText cur ccid prop pcid).valid =
      true := by
    rw [compare_valid_eq, hscan, hnew, hschema]
    simp [addedHashOk, hfetch, verifyHash, hhash]
  refine ⟨hvalid, ?_, ?_, ?_, ?_⟩
  · rw [compare_new_def]
    exact hnew
  · rw [compare_removed_def, hscan]
  · rw [compare_modified_def, hscan]
  · refine ⟨"✓ Valid update with ", "", ?_⟩
    have hov : overallValid (comparisonChecks sha256fn fetchLicenseText cur prop pcid) =
        true := by
      rw [← compare_valid_def sha256fn fetchLicenseText cur ccid prop pcid]
      exact hvalid
    rw [compare_summary_def]
    rw [hscan, hnew, hov]
    show buildSummary true [e] [] [] = _
    unfold buildSummary
    rw [if_pos ⟨rfl, by simp⟩]
    simp only [List.length_singleton, eq_self_iff_true, if_true]
    decide

/-- C4 witness: adding version 3 with a matching (case-insensitively
compared) license text hash to the sample registry is accepted with
exactly one new entry. -/
theorem spec_c4_witness :
    (compareRegistries sampleSha sampleFetch sampleCur none samplePropAdded "cidA").valid
        = true ∧
    (compareRegistries sampleSha sampleFetch sampleCur none samplePropAdded
      "cidA").newEntries = [sampleEntry 3 "AGPL-3.0-only" "3C3C" "2024-03-01"] ∧
    (compareRegistries sampleSha sampleFetch sampleCur none samplePropAdded
      "cidA").removedEntries = [] ∧
    (compareRegistries sampleSha sampleFetch sampleCur none samplePropAdded
      "cidA").modifiedEntries = [] ∧
    ∃ a b, (compareRegistries sampleSha sampleFetch sampleCur none samplePropAdded
      "cidA").summary = a ++ "1 new entry" ++ b :=
  spec_c4 sampleSha sampleFetch sampleCur none samplePropAdded "cidA"
    (sampleEntry 3 "AGPL-3.0-only" "3C3C" "2024-03-01") "AGPL body"
    (by decide) (by decide) (by decide) (by decide) (by decide) (by rfl) (by decide)

-- ============================================================
-- Claim C5: inline-mode chain reconstruction
-- ============================================================

/-- C5: for every manifest with the expected schema tag, a non-empty inline
entries array sorted newest first (strictly decreasing versions), and the
data-model invariant that current_version is the version of the newest
entry, the inline reconstruction succeeds, returns the entries array itself
as the chain, and the loaded currentEntry is its first element, whose
version equals current_version. -/
theorem spec_c5 (M : RegistryManifest) (e : LicenseEntry) (rest : List LicenseEntry)
    (hschema : M.schema = expectedRegistrySchema)
    (hentries : M.entries = e :: rest)
    (hsorted : M.entries.Pairwise (fun a b => b.version < a.version))
    (hinv : M.current_version = e.version) :
    reconstructInline M = Except.ok (M.entries, e) ∧ e.version = M.current_version := by
  constructor
  · unfold reconstructInline
    rw [if_neg (by rw [hschema]; exact fun h => h rfl)]
    rw [hentries]
  · exact hinv.symm

/-- C5 witness: the sample manifest (versions 2 then 1, current_version 2)
reconstructs to its own entries with the version 2 entry current. -/
theorem spec_c5_witness :
    reconstructInline sampleCur = Except.ok (sampleCur.entries,
      sampleEntry 2 "MIT" "2b2b" "2024-02-01") ∧
    (sampleEntry 2 "MIT" "2b2b" "2024-02-01").version = sampleCur.current_version :=
  spec_c5 sampleCur (sampleEntry 2 "MIT" "2b2b" "2024-02-01")
    [sampleEntry 1 "ISC" "1a1a" "2024-01-01"] (by decide) (by decide) (by decide) (by decide)

-- ============================================================
-- Claim C6: backward-walk chain reconstruction stops at a gap
-- ============================================================

theorem collectChain_eq_descList (fetchEntry : Nat → Option LicenseEntry)
    (e : Nat → LicenseEntry) (k : Nat)
    (hfail : k = 0 ∨ fetchEntry k = none) :
    ∀ v, k ≤ v → (∀ j, k < j → j ≤ v → fetchEntry j = some (e j)) →
      collectChain fetchEntry v = descList e k v := by
  intro v
  induction v with
  | zero => intro _ _; rfl
  | succ v ih =>
    intro hkv hok
    by_cases hke : k = v + 1
    · subst hke
      rcases hfail with h0 | hnone
      · exact absurd h0 (Nat.succ_ne_zero v)
      · show collectChain fetchEntry (Nat.succ v) = descList e (v + 1) (Nat.succ v)
        unfold collectChain descList
        rw [hnone, if_pos (Nat.le_refl _)]
    · have hkv2 : k ≤ v := by omega
      have hfetch : fetchEntry (v + 1) = some (e (v + 1)) :=
        hok (v + 1) (by omega) (Nat.le_refl _)
      show collectChain fetchEntry (Nat.succ v) = descList e k (Nat.succ v)
      unfold collectChain descList
      rw [hfetch, if_neg (by omega)]
      rw [ih hkv2 (fun j hj1 hj2 => hok j hj1 (Nat.le_succ_of_le hj2))]

/-- C6: in backward-walk mode, for a head entry of version n with the
expected entry schema, if fetching the entry of some version k below n
fails while every version from n-1 down to k+1 is fetchable, the
reconstruction does not error and returns exactly the head-first chain
head, e(n-1), ..., e(k+1), stopping the walk at the first fetch failure. -/
theorem spec_c6 (fetchEntry : Nat → Option LicenseEntry) (headEntry : LicenseEntry)
    (n k : Nat) (e : Nat → LicenseEntry)
    (hschema : headEntry.schema = expectedEntrySchema)
    (hver : headEntry.version = n)
    (hk : k < n)
    (hfail : fetchEntry k = none)
    (hok : ∀ j, k < j → j < n → fetchEntry j = some (e j)) :
    reconstructBackward fetchEntry headEntry =
      Except.ok (headEntry :: descList e k (n - 1)) := by
  unfold reconstructBackward
  rw [if_neg (by rw [hschema]; exact fun h => h rfl)]
  rw [hver]
  rw [collectChain_eq_descList fetchEntry e k (Or.inr hfail) (n - 1) (by omega)
    (fun j hj1 hj2 => hok j hj1 (by omega))]

/-- C6 witness: a head of version 3 with version 2 reachable and version 1
unreachable reconstructs, without error, to the two-entry chain head, v2. -/
theorem spec_c6_witness :
    reconstructBackward
      (fun v => if v = 2 then some (sampleEntry 2 "MIT" "2b2b" "2024-02-01") else none)
      (sampleEntry 3 "AGPL-3.0-only" "3C3C" "2024-03-01") =
      Except.ok [sampleEntry 3 "AGPL-3.0-only" "3C3C" "2024-03-01",
        sampleEntry 2 "MIT" "2b2b" "2024-02-01"] :=
  spec_c6
    (fun v => if v = 2 then some (sampleEntry 2 "MIT" "2b2b" "2024-02-01") else none)
    (sampleEntry 3 "AGPL-3.0-only" "3C3C" "2024-03-01") 3 1
    (fun j => sampleEntry j "MIT" "2b2b" "2024-02-01")
    (by decide) (by decide) (by decide) (by decide)
    (fun j hj1 hj2 => by
      have hj : j = 2 := by omega
      subst hj
      rfl)

-- ============================================================
-- Claim C7: multi-gateway fetch fallback and GatewayError
-- ============================================================

theorem fetchLoop_first_success {α : Type} (attempt : String → Except String α)
    (hash : String) (path : Option String) (allGateways : List String) :
    ∀ (pre : List String) (g : String) (post : List String) (resp : α)
      (errors : List String),
      (∀ p ∈ pre, ∃ err, attempt (buildUrl p hash path) = Except.error err) →
      attempt (buildUrl g hash path) = Except.ok resp →
      fetchLoop attempt hash path allGateways (pre ++ g :: post) errors = Except.ok resp := by
  intro pre
  induction pre with
  | nil =>
    intro g post resp errors _ hg
    show fetchLoop attempt hash path allGateways (g :: post) errors = Except.ok resp
    unfold fetchLoop
    rw [hg]
  | cons p pre ih =>
    intro g post resp errors hpre hg
    obtain ⟨err, herr⟩ := hpre p (List.mem_cons_self p pre)
    show fetchLoop attempt hash path allGateways (p :: (pre ++ g :: post)) errors =
      Except.ok resp
    unfold fetchLoop
    rw [herr]
    exact ih g post resp (errors ++ [err])
      (fun q hq => hpre q (List.mem_cons_of_mem p hq)) hg

theorem fetchLoop_all_fail {α : Type} (attempt : String → Except String α)
    (hash : String) (path : Option String) (allGateways : List String)
    (errOf : String → String) :
    ∀ (l : List String) (errors : List String),
      (∀ g ∈ l, attempt (buildUrl g hash path) = Except.error (errOf g)) →
      fetchLoop attempt hash path allGateways l errors = Except.error
        { message := "All IPFS gateways failed for CID: " ++ hash,
          protocol := "ipfs", hash := hash,
          attemptedGateways := allGateways,
          errors := errors ++ l.map errOf } := by
  intro l
  induction l with
  | nil =>
    intro errors _
    show fetchLoop attempt hash path allGateways [] errors = _
    unfold fetchLoop
    rw [List.map_nil, List.append_nil]
  | cons g l ih =>
    intro errors hfail
    show fetchLoop attempt hash path allGateways (g :: l) errors = _
    unfold fetchLoop
    rw [hfail g (List.mem_cons_self g l)]
    show fetchLoop attempt hash path allGateways l (errors ++ [errOf g]) = _
    rw [ih (errors ++ [errOf g]) (fun q hq => hfail q (List.mem_cons_of_mem g hq))]
    rw [List.append_assoc]
    rfl

/-- C7: the fetch layer tries each origin at most once, in list order. If
the gateway list splits as pre ++ g :: post with every origin of pre
failing and g succeeding, the fetch returns exactly the response of g (so
later origins are never consulted); and if every origin fails, the fetch
raises a GatewayError carrying the protocol, the hash, the full ordered
gateway list, and the per-origin errors in order — one error per origin —
rather than returning any data. -/
theorem spec_c7 {α : Type} (attempt : String → Except String α) (gateways : List String)
    (hash : String) (path : Option String) :
    (∀ (pre : List String) (g : String) (post : List String) (resp : α),
      gateways = pre ++ g :: post →
      (∀ p ∈ pre, ∃ err, attempt (buildUrl p hash path) = Except.error err) →
      attempt (buildUrl g hash path) = Except.ok resp →
      ipfsFetch attempt gateways hash path = Except.ok resp) ∧
    (∀ errOf : String → String,
      (∀ g ∈ gateways, attempt (buildUrl g hash path) = Except.error (errOf g)) →
      ipfsFetch attempt gateways hash path = Except.error
        { message := "All IPFS gateways failed for CID: " ++ hash,
          protocol := "ipfs", hash := hash,
          attemptedGateways := gateways,
          errors := gateways.map errOf }) := by
  constructor
  · intro pre g post resp hsplit hpre hg
    unfold ipfsFetch
    rw [hsplit]
    exact fetchLoop_first_success attempt hash path (pre ++ g :: post) pre g post resp []
      hpre hg
  · intro errOf hfail
    unfold ipfsFetch
    rw [fetchLoop_all_fail attempt hash path gateways errOf gateways [] hfail]
    rw [List.nil_append]

/-- C7 witness: with the four default gateways, a timeout on every origin
surfaces a GatewayError listing all four attempted origins and four
per-origin errors, while an attempt function succeeding on the second
origin returns that response. -/
theorem spec_c7_witness :
    ipfsFetch (fun _ => (Except.error "timeout" : Except String String))
      DEFAULT_IPFS_GATEWAYS "QmSample" none = Except.error
        { message := "All IPFS gateways failed for CID: " ++ "QmSample",
          protocol := "ipfs", hash := "QmSample",
          attemptedGateways := DEFAULT_IPFS_GATEWAYS,
          errors := DEFAULT_IPFS_GATEWAYS.map (fun _ => "timeout") } ∧
    ipfsFetch
      (fun u => if u = "https://w3s.link/ipfs/QmSample" then Except.ok "payload"
        else (Except.error "HTTP 504" : Except String String))
      DEFAULT_IPFS_GATEWAYS "QmSample" none = Except.ok "payload" :=
  ⟨(spec_c7 (fun _ => (Except.error "timeout" : Except String String))
      DEFAULT_IPFS_GATEWAYS "QmSample" none).2 (fun _ => "timeout")
      (fun g _ => rfl),
   (spec_c7
      (fun u => if u = "https://w3s.link/ipfs/QmSample" then Except.ok "payload"
        else (Except.error "HTTP 504" : Except String String))
      DEFAULT_IPFS_GATEWAYS "QmSample" none).1
      ["https://dweb.link"] "https://w3s.link"
      ["https://cloudflare-ipfs.com", "https://ipfs.io"] "payload"
      (by decide) (fun p hp => ⟨"HTTP 504", by
        have hp1 : p = "https://dweb.link" := by
          rcases List.mem_singleton.mp hp with h
          exact h
        subst hp1
        rfl⟩) (by rfl)⟩

-- ============================================================
-- Claim C8: decodeContenthash returns null on malformed input
-- ============================================================

/-- C8: decodeContenthash returns null rather than throwing on every
malformed input: a null input; a string shorter than 4 characters; a hex
payload whose byte conversion throws (odd length, modeled by the none case
of hexToBytes); fewer than 2 decoded bytes; a varint codec tag other than
the IPFS, IPNS and Swarm namespaces; a Swarm payload shorter than 32
bytes; an undecodable CID payload; and on any string input it is total,
returning either null or a content reference (the whole body is wrapped in
a try/catch in the source, and the embedding is a total function). -/
theorem spec_c8 :
    (decodeContenthash none = none) ∧
    (∀ s : String, s.data.length < 4 → decodeContenthash (some s) = none) ∧
    (∀ s : String,
      hexToBytes (if strStartsWith s "0x" then strDrop s 2 else s) = none →
      decodeContenthash (some s) = none) ∧
    (∀ (s : String) (bytes : List Nat),
      hexToBytes (if strStartsWith s "0x" then strDrop s 2 else s) = some bytes →
      bytes.length < 2 → decodeContenthash (some s) = none) ∧
    (∀ (s : String) (bytes : List Nat),
      hexToBytes (if strStartsWith s "0x" then strDrop s 2 else s) = some bytes →
      (readVarint bytes).1 ≠ 0xe3 → (readVarint bytes).1 ≠ 0xe4 →
      (readVarint bytes).1 ≠ 0xe5 → decodeContenthash (some s) = none) ∧
    (∀ (s : String) (bytes : List Nat),
      hexToBytes (if strStartsWith s "0x" then strDrop s 2 else s) = some bytes →
      (readVarint bytes).1 = 0xe4 → (bytes.drop (readVarint bytes).2).length < 32 →
      decodeContenthash (some s) = none) ∧
    (∀ (s : String) (bytes : List Nat),
      hexToBytes (if strStartsWith s "0x" then strDrop s 2 else s) = some bytes →
      ((readVarint bytes).1 = 0xe3 ∨ (readVarint bytes).1 = 0xe5) →
      decodeCid (bytes.drop (readVarint bytes).2) = none →
      decodeContenthash (some s) = none) ∧
    (∀ s : String, decodeContenthash (some s) = none ∨
      ∃ ref, decodeContenthash (some s) = some ref) := by
  refine ⟨rfl, ?_, ?_, ?_, ?_, ?_, ?_, ?_⟩
  · intro s h
    show decodeContenthashStr s = none
    unfold decodeContenthashStr
    rw [if_pos (by rw [decide_eq_true h]; simp)]
  · intro s hhex
    show decodeContenthashStr s = none
    unfold decodeContenthashStr
    by_cases hguard : (s.isEmpty || s == "0x" || decide (s.data.length < 4)) = true
    · rw [if_pos hguard]
    · rw [if_neg hguard]
      simp only [hhex]
  · intro s bytes hhex hlen
    show decodeContenthashStr s = none
    unfold decodeContenthashStr
    by_cases hguard : (s.isEmpty || s == "0x" || decide (s.data.length < 4)) = true
    · rw [if_pos hguard]
    · rw [if_neg hguard]
      simp only [hhex]
      rw [if_pos hlen]
  · intro s bytes hhex h3 h4 h5
    show decodeContenthashStr s = none
    unfold decodeContenthashStr
    by_cases hguard : (s.isEmpty || s == "0x" || decide (s.data.length < 4)) = true
    · rw [if_pos hguard]
    · rw [if_neg hguard]
      simp only [hhex]
      by_cases hlen : bytes.length < 2
      · rw [if_pos hlen]
      · rw [if_neg hlen, if_neg h3, if_neg h5, if_neg h4]
  · intro s bytes hhex hc hshort
    show decodeContenthashStr s = none
    unfold decodeContenthashStr
    by_cases hguard : (s.isEmpty || s == "0x" || decide (s.data.length < 4)) = true
    · rw [if_pos hguard]
    · rw [if_neg hguard]
      simp only [hhex]
      by_cases hlen : bytes.length < 2
      · rw [if_pos hlen]
      · rw [if_neg hlen]
        rw [if_neg (by rw [hc]; intro hcon; exact absurd hcon (by decide))]
        rw [if_neg (by rw [hc]; intro hcon; exact absurd hcon (by decide))]
        rw [if_pos hc]
        rw [if_neg (by omega)]
  · intro s bytes hhex hc hcid
    show decodeContenthashStr s = none
    unfold decodeContenthashStr
    by_cases hguard : (s.isEmpty || s == "0x" || decide (s.data.length < 4)) = true
    · rw [if_pos hguard]
    · rw [if_neg hguard]
      simp only [hhex]
      by_cases hlen : bytes.length < 2
      · rw [if_pos hlen]
      · rw [if_neg hlen]
        rcases hc with hc | hc
        · rw [if_pos hc, hcid]
        · rw [if_neg (by rw [hc]; intro hcon; exact absurd hcon (by decide))]
          rw [if_pos hc, hcid]
  · intro s
    cases h : decodeContenthash (some s) with
    | none => exact Or.inl rfl
    | some ref => exact Or.inr ⟨ref, rfl⟩

/-- C8 witness: concrete malformed contenthash inputs of each kind all
decode to null: the bare 0x, an odd-length hex payload, a single decoded
byte, an unknown codec, a short Swarm payload, and an undecodable one-byte
CID payload. -/
theorem spec_c8_witness :
    decodeContenthash none = none ∧
    decodeContenthash (some "0x") = none ∧
    decodeContenthash (some "0xabc") = none ∧
    decodeContenthash (some "0xab") = none ∧
    decodeContenthash (some "0x12ab") = none ∧
    decodeContenthash (some "0xe401abcd") = none ∧
    decodeContenthash (some "0xe30112") = none :=
  ⟨spec_c8.1,
   spec_c8.2.1 "0x" (by decide),
   spec_c8.2.2.1 "0xabc" (by decide),
   spec_c8.2.2.2.1 "0xab" [0xab] (by decide) (by decide),
   spec_c8.2.2.2.2.1 "0x12ab" [0x12, 0xab] (by decide) (by decide) (by decide) (by decide),
   spec_c8.2.2.2.2.2.1 "0xe401abcd" [0xe4, 0x01, 0xab, 0xcd] (by decide) (by decide)
     (by decide),
   spec_c8.2.2.2.2.2.2.1 "0xe30112" [0xe3, 0x01, 0x12] (by decide) (Or.inl (by decide))
     (by decide)⟩

-- ============================================================
-- Claim C9: content URI parse and format round trip
-- ============================================================

theorem str_ext {a b : String} (h : a.data = b.data) : a = b := by
  cases a
  cases b
  exact congrArg String.mk h

theorem data_ne_nil_of_ne_empty {h : String} (hne : h ≠ "") : h.data ≠ [] := by
  intro hd
  exact hne (str_ext (by rw [hd]))

theorem prefix_colon_split :
    ∀ (xs ys u v : List Char), (∀ c ∈ xs, c ≠ ':') → (∀ c ∈ ys, c ≠ ':') →
      (xs ++ ':' :: u) <+: (ys ++ ':' :: v) → xs = ys := by
  intro xs
  induction xs with
  | nil =>
    intro ys u v _ hys hpre
    cases ys with
    | nil => rfl
    | cons y ys =>
      rw [List.nil_append, List.cons_append] at hpre
      have hcp := List.cons_prefix_cons.mp hpre
      exact absurd hcp.1.symm (hys y (List.mem_cons_self y ys))
  | cons x xs ih =>
    intro ys u v hxs hys hpre
    cases ys with
    | nil =>
      rw [List.nil_append, List.cons_append] at hpre
      have hcp := List.cons_prefix_cons.mp hpre
      exact absurd hcp.1 (hxs x (List.mem_cons_self x xs))
    | cons y ys =>
      rw [List.cons_append, List.cons_append] at hpre
      have hcp := List.cons_prefix_cons.mp hpre
      rw [hcp.1, ih ys u v (fun c hc => hxs c (List.mem_cons_of_mem x hc))
        (fun c hc => hys c (List.mem_cons_of_mem y hc)) hcp.2]

theorem uri_data_split (p h : String) :
    (p ++ "://" ++ h).data = (p.data ++ [':', '/', '/']) ++ h.data := by
  rw [String.data_append, String.data_append]

theorem tryProtoAlt_self (p h : String) (hne : h ≠ "")
    (hterm : ∀ c ∈ h.data, isLineTerminator c = false) :
    tryProtoAlt (p ++ "://" ++ h) p = some (p, h) := by
  unfold tryProtoAlt
  rw [uri_data_split]
  rw [if_pos (List.isPrefixOf_iff_prefix.mpr (List.prefix_append _ _))]
  simp only [List.drop_left]
  have h1 : h.data.isEmpty = false := by
    cases hd : h.data with
    | nil => exact absurd hd (data_ne_nil_of_ne_empty hne)
    | cons c l => rfl
  have h2 : h.data.all (fun c => !(isLineTerminator c)) = true :=
    List.all_eq_true.mpr (fun c hc => by rw [hterm c hc]; rfl)
  rw [if_pos (by rw [h1, h2]; rfl)]

theorem tryProtoAlt_mismatch (proto p h : String)
    (hpcolon : ∀ c ∈ p.data, c ≠ ':') (hprotocolon : ∀ c ∈ proto.data, c ≠ ':')
    (hne : proto ≠ p) :
    tryProtoAlt (p ++ "://" ++ h) proto = none := by
  unfold tryProtoAlt
  rw [if_neg]
  intro hpref
  have hp := List.isPrefixOf_iff_prefix.mp hpref
  rw [uri_data_split] at hp
  rw [List.append_assoc] at hp
  have hsplit : proto.data = p.data := by
    have h1 : proto.data ++ ':' :: ['/', '/'] <+: p.data ++ ':' :: ('/' :: '/' :: h.data) := by
      exact hp
    exact prefix_colon_split proto.data p.data ['/', '/'] ('/' :: '/' :: h.data)
      hprotocolon hpcolon h1
  exact hne (str_ext hsplit)

/-- C9: for every well-formed URI of the shape protocol://hash with a
supported protocol tag (ipfs, ipns, bzz or ar) and a non-empty hash free
of line terminators, parseContentUri recovers the protocol and the hash
and formatContentUri of the parse result gives back the original string;
and for every URI whose protocol tag (a string free of the colon
character) is not one of those four — including ens — parseContentUri
returns null. -/
theorem spec_c9 :
    (∀ p h : String, (p = "ipfs" ∨ p = "ipns" ∨ p = "bzz" ∨ p = "ar") → h ≠ "" →
      (∀ c ∈ h.data, isLineTerminator c = false) →
      parseContentUri (p ++ "://" ++ h) = some { protocol := p, hash := h } ∧
      (parseContentUri (p ++ "://" ++ h)).map formatContentUri =
        some (p ++ "://" ++ h)) ∧
    (∀ p h : String, (∀ c ∈ p.data, c ≠ ':') → p ≠ "ipfs" → p ≠ "ipns" → p ≠ "bzz" →
      p ≠ "ar" → parseContentUri (p ++ "://" ++ h) = none) := by
  constructor
  · intro p h hp hne hterm
    have hparse : parseContentUri (p ++ "://" ++ h) = some { protocol := p, hash := h } := by
      rcases hp with hp | hp | hp | hp <;> subst hp
      · unfold parseContentUri regexMatchContentUri
        rw [tryProtoAlt_self "ipfs" h hne hterm]
        rfl
      · unfold parseContentUri regexMatchContentUri
        rw [tryProtoAlt_mismatch "ipfs" "ipns" h (by decide) (by decide) (by decide)]
        rw [tryProtoAlt_self "ipns" h hne hterm]
        rfl
      · unfold parseContentUri regexMatchContentUri
        rw [tryProtoAlt_mismatch "ipfs" "bzz" h (by decide) (by decide) (by decide)]
        rw [tryProtoAlt_mismatch "ipns" "bzz" h (by decide) (by decide) (by decide)]
        rw [tryProtoAlt_self "bzz" h hne hterm]
        rfl
      · unfold parseContentUri regexMatchContentUri
        rw [tryProtoAlt_mismatch "ipfs" "ar" h (by decide) (by decide) (by decide)]
        rw [tryProtoAlt_mismatch "ipns" "ar" h (by decide) (by decide) (by decide)]
        rw [tryProtoAlt_mismatch "bzz" "ar" h (by decide) (by decide) (by decide)]
        rw [tryProtoAlt_self "ar" h hne hterm]
        rfl
    exact ⟨hparse, by rw [hparse]; rfl⟩
  · intro p h hpcolon h1 h2 h3 h4
    unfold parseContentUri regexMatchContentUri
    rw [tryProtoAlt_mismatch "ipfs" p h hpcolon (by decide) (Ne.symm h1)]
    rw [tryProtoAlt_mismatch "ipns" p h hpcolon (by decide) (Ne.symm h2)]
    rw [tryProtoAlt_mismatch "bzz" p h hpcolon (by decide) (Ne.symm h3)]
    rw [tryProtoAlt_mismatch "ar" p h hpcolon (by decide) (Ne.symm h4)]
    rfl

/-- C9 witness: a concrete ipfs URI round trips through parse and format,
and a concrete ens URI parses to null. -/
theorem spec_c9_witness :
    (parseContentUri ("ipfs" ++ "://" ++ "bafybeigdyrzt5sample") =
      some { protocol := "ipfs", hash := "bafybeigdyrzt5sample" } ∧
    (parseContentUri ("ipfs" ++ "://" ++ "bafybeigdyrzt5sample")).map formatContentUri =
      some ("ipfs" ++ "://" ++ "bafybeigdyrzt5sample")) ∧
    parseContentUri ("ens" ++ "://" ++ "license.commonground.eth") = none :=
  ⟨spec_c9.1 "ipfs" "bafybeigdyrzt5sample" (Or.inl rfl) (by decide) (by decide),
   spec_c9.2 "ens" "license.commonground.eth" (by decide) (by decide) (by decide)
     (by decide) (by decide)⟩
